import Mathlib

/-!
Verification of the mozblocklist core against its specification.

The development shallowly embeds the core of the repository:
* `src/utils.js` — `regexEscape`, `createGuidStrings` (the guid/regex block
  compiler), `expandGuidRegex` (its conservative inverse) together with the
  structural template `kIsMultipleIds`, the escape-sequence filter
  `kEscapeSequences` and the removal pattern `kRegExpRemovalRegExp` that
  `expandGuidRegex` uses;
* `src/cli.js` — `readGuidData` (classification of candidate guids against the
  loaded blocklist) and the request-building core of
  `createBlocklistEntryInteractively`;
* `src/kinto-client.js` — `loadBlocklist` (index construction),
  `ensureBlocklistState` and the three state-transition operations.

Strings are modelled through their character lists; JavaScript regular
expressions used for *matching candidates* are modelled as boolean test
functions (they are opaque host objects to the program), while the three fixed
regexes of `expandGuidRegex` are implemented structurally, character by
character, following their definitions in the source.
-/

set_option maxRecDepth 20000

/-- Left curly brace character (spelled via its code point). -/
def lcurly : Char := Char.ofNat 123

/-- Right curly brace character (spelled via its code point). -/
def rcurly : Char := Char.ofNat 125

/-- Whitespace recognised by JavaScript `String.prototype.trim` (the common
subset exercised by this program: blanks, tabs and line terminators). -/
def jsSpace (c : Char) : Bool :=
  c = ' ' || c = '\t' || c = '\n' || c = '\r' || c = Char.ofNat 11 || c = Char.ofNat 12

/-- JavaScript `line.trim()`. -/
def jsTrim (s : String) : String :=
  ⟨((s.data.dropWhile jsSpace).reverse.dropWhile jsSpace).reverse⟩

/-- JavaScript `s.substring(a, b)` (indices clamped to the length and swapped
when out of order). -/
def jsSubstring (s : String) (a b : Nat) : String :=
  let a' := min a s.data.length
  let b' := min b s.data.length
  ⟨(s.data.take (max a' b')).drop (min a' b')⟩

/-! ### Constants (`src/constants.js`) -/

def COMMENT_CHAR : String := "#"

def SOFT_BLOCK : Nat := 1

def HARD_BLOCK : Nat := 3

def REGEX_BLOCK_MAXLEN : Nat := 4250

def REGEX_BLOCK_START : String := "/^(("

def REGEX_BLOCK_DELIM : String := ")|("

def REGEX_BLOCK_END : String := "))$/"

/-! ### `regexEscape` (`src/utils.js`)

`str.replace(/[\\$^*+.?(){}|[\]]/g, "\\$&")`: every character of the class is
replaced by a backslash followed by itself. -/

/-- Membership in the character class of `regexEscape`. -/
def isEscapedChar (c : Char) : Bool :=
  c = '\\' || c = '$' || c = '^' || c = '*' || c = '+' || c = '.' || c = '?' ||
  c = '(' || c = ')' || c = lcurly || c = rcurly || c = '|' || c = '[' || c = ']'

/-- One step of `regexEscape`: the replacement text for a single character. -/
def escChar (c : Char) : List Char :=
  if isEscapedChar c then ['\\', c] else [c]

/-- The `regexEscape` on a character list. -/
def escChars : List Char → List Char
  | [] => []
  | c :: rest => escChar c ++ escChars rest

/-- The `regexEscape(str)` from `src/utils.js`. -/
def regexEscape (s : String) : String := ⟨escChars s.data⟩

/-! ### `createGuidStrings` (`src/utils.js`) -/

/-- Running length of a block as `createGuidStrings` counts it: escaped length
plus the fixed per-item delimiter overhead, summed over the block. -/
def blockLen : List String → Nat
  | [] => 0
  | e :: rest => e.length + REGEX_BLOCK_DELIM.length + blockLen rest

/-- The greedy packing loop of `createGuidStrings`.  `blocks` are the closed
blocks, `current` the open block (already escaped guids), `curlen` the running
length counter. -/
def chunkLoop (blocks : List (List String)) (current : List String) (curlen : Nat) :
    List String → List (List String)
  | [] => blocks ++ [current]
  | guid :: rest =>
    let escaped := regexEscape guid
    let curlen' := curlen + escaped.length + REGEX_BLOCK_DELIM.length
    if curlen' > REGEX_BLOCK_MAXLEN then
      chunkLoop (blocks ++ [current]) [escaped] (escaped.length + REGEX_BLOCK_DELIM.length) rest
    else
      chunkLoop blocks (current ++ [escaped]) curlen' rest

/-- The blocks (lists of escaped guids) produced by the loop of
`createGuidStrings` for a multi-guid input. -/
def chunkGuids (guids : List String) : List (List String) :=
  chunkLoop [] [] 0 guids

/-- Character-level join with the `)|(` delimiter (`block.join(REGEX_BLOCK_DELIM)`). -/
def sepJoinChars : List (List Char) → List Char
  | [] => []
  | [b] => b
  | b :: bs => b ++ REGEX_BLOCK_DELIM.data ++ sepJoinChars bs

/-- The `REGEX_BLOCK_START + block.join(REGEX_BLOCK_DELIM) + REGEX_BLOCK_END` on
character lists. -/
def wrapChars (bs : List (List Char)) : List Char :=
  REGEX_BLOCK_START.data ++ sepJoinChars bs ++ REGEX_BLOCK_END.data

/-- Wrap one block of escaped guids into its regex string. -/
def wrapBlock (b : List String) : String := ⟨wrapChars (b.map String.data)⟩

/-- The `createGuidStrings(guids)` from `src/utils.js`.  For an empty input the
JavaScript returns `[undefined]`; no caller (and no claim) exercises that, and
it is rendered here as `[guids.headD ""]`. -/
def createGuidStrings (guids : List String) : List String :=
  if guids.length > 1 then (chunkGuids guids).map wrapBlock
  else [guids.headD ""]

/-! ### `expandGuidRegex` (`src/utils.js`)

The three fixed regular expressions taken from Blocklist.jsm are implemented
structurally.  `kIdSubRegex` is `\([\\\w .{}@-]+\)`; `kIsMultipleIds` is
anchored `/^\(?` id (`\|` id)* `\)?\$/`; `kEscapeSequences` is `\\[^.{}]`;
`kRegExpRemovalRegExp` removes the leading `/^(` (plus optional `(`), every
backslash, and the trailing `)$/` (plus optional `)`). -/

/-- The character class of `kIdSubRegex`: backslash, word characters, blank,
dot, curly braces, `@` and `-`. -/
def idChar (c : Char) : Bool :=
  c = '\\' || c.isAlphanum || c = '_' || c = ' ' || c = '.' ||
  c = lcurly || c = rcurly || c = '@' || c = '-'

/-- Parse one `kIdSubRegex` occurrence `"(" [idChar]+ ")"`; returns the rest. -/
def parseId : List Char → Option (List Char)
  | '(' :: rest =>
    if (rest.takeWhile idChar).isEmpty then none
    else
      match rest.dropWhile idChar with
      | ')' :: r => some r
      | _ => none
  | _ => none

/-- Greedily parse `(\| id)*`, returning the remainder; mirrors the
backtracking search of `kIsMultipleIds` (which cannot succeed with fewer
iterations, since a leftover `|` never matches the tail `\)?\$/`).  A fuel
argument keeps the recursion structural; every iteration of the loop consumes
at least four characters, so any fuel at least the length of the input makes
the fuel irrelevant (`parseMoreFuel_congr`). -/
def parseMoreFuel : Nat → List Char → List Char
  | 0, r => r
  | fuel + 1, r =>
    match r with
    | c :: rest =>
      if c = '|' then
        match parseId rest with
        | some r2 => parseMoreFuel fuel r2
        | none => r
      else r
    | [] => r

/-- Greedily parse `(\| id)*`, returning the remainder. -/
def parseMore (r : List Char) : List Char := parseMoreFuel r.length r

/-- Match `id (\| id)* \)?\$/` against `r`. -/
def matchFrom (r : List Char) : Bool :=
  match parseId r with
  | some r1 =>
    let rem := parseMore r1
    rem = [')', '$', '/'] || rem = ['$', '/']
  | none => false

/-- The `kIsMultipleIds.test(str)`: the anchored template
`/^\(?` id (`\|` id)* `\)?\$/`. -/
def kIsMultipleIds (s : String) : Bool :=
  match s.data with
  | '/' :: '^' :: rest =>
    (match rest with
     | '(' :: r => matchFrom r
     | _ => false) || matchFrom rest
  | _ => false

/-- The `kEscapeSequences.test(str)`: some backslash is followed by a character
other than `.`, `{`, `}`. -/
def hasBadEscape : List Char → Bool
  | [] => false
  | c :: rest =>
    if c = '\\' then
      match rest with
      | [] => false
      | c2 :: _ =>
        if c2 = '.' || c2 = lcurly || c2 = rcurly then hasBadEscape rest else true
    else hasBadEscape rest

/-- First alternative of `kRegExpRemovalRegExp`: remove a leading `/^(` plus
an optional further `(`. -/
def dropGunkStart : List Char → List Char
  | '/' :: '^' :: '(' :: '(' :: rest => rest
  | '/' :: '^' :: '(' :: rest => rest
  | l => l

/-- Last alternative of `kRegExpRemovalRegExp`: remove a trailing `)$/` plus
an optional further `)`. -/
def dropGunkEnd (l : List Char) : List Char :=
  match l.reverse with
  | '/' :: '$' :: ')' :: ')' :: rest => rest.reverse
  | '/' :: '$' :: ')' :: rest => rest.reverse
  | _ => l

/-- The `str.replace(kRegExpRemovalRegExp, "")`: strip the leading `/^(` with an
optional further `(`, the trailing `)$/` with an optional further `)`, and all
backslashes (the three alternatives match disjoint parts of the string, so
they can be applied in sequence). -/
def stripGunkChars (l : List Char) : List Char :=
  (dropGunkEnd (dropGunkStart l)).filter (fun c => c ≠ '\\')

/-- The `str.split(")|(")` (left-to-right, non-overlapping). -/
def splitArms : List Char → List (List Char)
  | [] => [[]]
  | ')' :: '|' :: '(' :: rest => [] :: splitArms rest
  | c :: rest =>
    match splitArms rest with
    | a :: as => (c :: a) :: as
    | [] => [[c]]

/-- The `[...new Set(xs)]`: de-duplication keeping first occurrences. -/
def dedupFirstGo (seen : List String) : List String → List String
  | [] => []
  | x :: xs => if x ∈ seen then dedupFirstGo seen xs else x :: dedupFirstGo (x :: seen) xs

/-- De-duplicate a string list in first-seen order. -/
def dedupFirst (xs : List String) : List String := dedupFirstGo [] xs

/-- The `expandGuidRegex(str)` from `src/utils.js`. -/
def expandGuidRegex (str : String) : List String :=
  match str.data with
  | '/' :: _ =>
    if kIsMultipleIds str && !hasBadEscape str.data then
      dedupFirst ((splitArms (stripGunkChars str.data)).map (fun a => ⟨a⟩))
    else []
  | _ => [str]

/-! ### `readGuidData` (`src/cli.js`)

Candidate classification.  The exact-guid map and the regex map produced by
`loadBlocklist` are passed in; JavaScript `Map`s are modelled as association
lists with the `Map.set` update-in-place / append semantics, and a compiled
`RegExp` key is modelled as its source string together with an opaque boolean
matcher (the host regex engine).  The blocklist record attached to an entry is
an abstract payload `ε`. -/

/-- One entry of the regex map: the pattern source, the host matcher, and the
blocklist record. -/
structure RegexEntry (ε : Type) where
  source : String
  test : String → Bool
  entry : ε

/-- The `Map.prototype.set`: replace in place when the key is present, append
otherwise. -/
def mapSet {ε : Type} (m : List (String × ε)) (k : String) (v : ε) : List (String × ε) :=
  if m.any (fun p => p.1 = k) then m.map (fun p => if p.1 = k then (k, v) else p)
  else m ++ [(k, v)]

/-- The `Set.prototype.add`: append when absent. -/
def setAdd (s : List String) (x : String) : List String :=
  if x ∈ s then s else s ++ [x]

/-- The `Map.prototype.get` as first association lookup. -/
def lookupMap {ε : Type} (m : List (String × ε)) (k : String) : Option ε :=
  (m.find? (fun p => p.1 = k)).map (fun p => p.2)

/-- The two diagnostic warnings `readGuidData` prints with `console.error`; a
warning names the candidate guid and the sources of every matching regex. -/
inductive GuidWarning where
  | singleAndRegex (guid : String) (sources : List String)
  | multipleRegex (guid : String) (sources : List String)
deriving DecidableEq

/-- The result object of `readGuidData` plus the emitted warnings. -/
structure GuidData (ε : Type) where
  existing : List (String × ε)
  newguids : List String
  warnings : List GuidWarning

/-- Processing of one input line by `readGuidData`. -/
def readGuidStep {ε : Type} (guids : List (String × ε)) (regexes : List (RegexEntry ε))
    (acc : GuidData ε) (line : String) : GuidData ε :=
  let guid := jsTrim line
  if guid = "" || guid.data.head? = some '#' then acc
  else
    let regexmatches := regexes.filter (fun r => r.test guid)
    match lookupMap guids guid with
    | some entry =>
      { acc with
        existing := mapSet acc.existing guid entry,
        warnings :=
          if regexmatches.isEmpty then acc.warnings
          else
            acc.warnings ++ [GuidWarning.singleAndRegex guid (regexmatches.map (fun r => r.source))] }
    | none =>
      match regexmatches with
      | [] => { acc with newguids := setAdd acc.newguids guid }
      | r :: _ =>
        { acc with
          existing := mapSet acc.existing guid r.entry,
          warnings :=
            if regexmatches.length > 1 then
              acc.warnings ++ [GuidWarning.multipleRegex guid (regexmatches.map (fun rr => rr.source))]
            else acc.warnings }

/-- The loop of `readGuidData` over the input lines. -/
def readGuidGo {ε : Type} (guids : List (String × ε)) (regexes : List (RegexEntry ε))
    (acc : GuidData ε) : List String → GuidData ε
  | [] => acc
  | line :: rest => readGuidGo guids regexes (readGuidStep guids regexes acc line) rest

/-- The `readGuidData(lines, guids, regexes)` from `src/cli.js`. -/
def readGuidData {ε : Type} (lines : List String) (guids : List (String × ε))
    (regexes : List (RegexEntry ε)) : GuidData ε :=
  readGuidGo guids regexes ⟨[], [], []⟩ lines

/-! ### `loadBlocklist` (`src/kinto-client.js`)

The snapshot records carry a guid, a `last_modified` timestamp and an optional
`details.created` timestamp (defaulted from `last_modified` during the load;
the ISO rendering of the date is modelled by the timestamp itself), plus an
abstract remaining payload.  Compiling a pattern with the host `new RegExp`
constructor is modelled by a function `compile : String → Option π`; `none`
models the constructor throwing `SyntaxError`, which the source does not
catch. -/

/-- One raw record of the `blocklists/addons` snapshot. -/
structure SnapshotEntry (δ : Type) where
  guid : String
  last_modified : Nat
  details_created : Option Nat
  details : δ
deriving DecidableEq

/-- The `if (!entry.details.created) entry.details.created = ...`. -/
def normalizeEntry {δ : Type} (e : SnapshotEntry δ) : SnapshotEntry δ :=
  if e.details_created.isNone then { e with details_created := some e.last_modified } else e

/-- The pair of maps `loadBlocklist` returns. -/
structure BlocklistMaps (δ π : Type) where
  guids : List (String × SnapshotEntry δ)
  regexes : List (π × SnapshotEntry δ)
deriving DecidableEq

/-- Error message for a pattern the host regex constructor rejects. -/
def malformedMsg (pattern : String) : String :=
  "SyntaxError: invalid regular expression: " ++ pattern

/-- The loop of `loadBlocklist` over the snapshot records (the normalized
entry `normalizeEntry e0` plays the role of the loop variable `entry` after
the `details.created` defaulting). -/
def loadBlocklistGo {δ π : Type} (compile : String → Option π)
    (guids : List (String × SnapshotEntry δ)) (regexes : List (π × SnapshotEntry δ)) :
    List (SnapshotEntry δ) → Except String (BlocklistMaps δ π)
  | [] => .ok ⟨guids, regexes⟩
  | e0 :: rest =>
    if (normalizeEntry e0).guid.data.head? = some '/' then
      match compile (jsSubstring (normalizeEntry e0).guid
          1 ((normalizeEntry e0).guid.length - 1)) with
      | some p => loadBlocklistGo compile guids (regexes ++ [(p, normalizeEntry e0)]) rest
      | none =>
        .error (malformedMsg (jsSubstring (normalizeEntry e0).guid
          1 ((normalizeEntry e0).guid.length - 1)))
    else if (normalizeEntry e0).guid.data.head? = some '^' then
      match compile (normalizeEntry e0).guid with
      | some p => loadBlocklistGo compile guids (regexes ++ [(p, normalizeEntry e0)]) rest
      | none => .error (malformedMsg (normalizeEntry e0).guid)
    else
      loadBlocklistGo compile
        (mapSet guids (normalizeEntry e0).guid (normalizeEntry e0)) regexes rest

/-- The `loadBlocklist()` from `src/kinto-client.js`, over an already-fetched
snapshot. -/
def loadBlocklist {δ π : Type} (compile : String → Option π)
    (entries : List (SnapshotEntry δ)) : Except String (BlocklistMaps δ π) :=
  loadBlocklistGo compile [] [] entries

/-! ### Collection state machine (`src/kinto-client.js`) -/

/-- The remote collection as the client observes it: the current status label
and the trace of status writes performed through `setData`. -/
structure KintoState where
  status : String
  writes : List String
deriving DecidableEq

/-- Outcome of a client operation: either success or a thrown error, in both
cases with the resulting collection state. -/
inductive KResult where
  | ok (st : KintoState)
  | err (msg : String) (st : KintoState)
deriving DecidableEq

/-- The collection state an outcome leaves behind. -/
def KResult.stateOf : KResult → KintoState
  | .ok st => st
  | .err _ st => st

/-- Whether the operation threw. -/
def KResult.isErr : KResult → Bool
  | .ok _ => false
  | .err _ _ => true

/-- The `ensureBlocklistState(statii)`: read the status, throw if it is not one of
the requested states; no write happens. -/
def ensureBlocklistState (statii : List String) (st : KintoState) : KResult :=
  if st.status ∈ statii then .ok st
  else
    .err ("Expected blocklist to be in states " ++ String.intercalate "," statii ++
      ", but was in " ++ st.status) st

/-- The `_updateCollectionStatus(status)`: patch the collection status. -/
def updateCollectionStatus (status : String) (st : KintoState) : KintoState :=
  { status := status, writes := st.writes ++ [status] }

/-- The `reviewBlocklist()`. -/
def reviewBlocklist (st : KintoState) : KResult :=
  match ensureBlocklistState ["work-in-progress"] st with
  | .ok st1 => .ok (updateCollectionStatus "to-review" st1)
  | .err m st1 => .err m st1

/-- The `signBlocklist()`. -/
def signBlocklist (st : KintoState) : KResult :=
  match ensureBlocklistState ["to-review"] st with
  | .ok st1 => .ok (updateCollectionStatus "to-sign" st1)
  | .err m st1 => .err m st1

/-- The `rejectBlocklist()`. -/
def rejectBlocklist (st : KintoState) : KResult :=
  match ensureBlocklistState ["to-review"] st with
  | .ok st1 => .ok (updateCollectionStatus "work-in-progress" st1)
  | .err m st1 => .err m st1

/-! ### Creation requests (`createBlocklistEntryInteractively`, `src/cli.js`)

The interactive prompts are modelled as already-collected answers; the dataflow
from the answers and the new guids to the sequence of `createBlocklistEntry`
calls is embedded.  `answerMin`/`answerMax` are the raw replies to the version
prompts (the source applies `|| "0"` and `|| "*"` defaults to them, and only
asks when exactly one guid is being blocked). -/

/-- The payload of one `createBlocklistEntry` call. -/
structure CreationRequest where
  guid : String
  bug : String
  name : String
  reason : String
  severity : Nat
  minVersion : String
  maxVersion : String
deriving DecidableEq

/-- The creation requests issued by `createBlocklistEntryInteractively` once
the user confirms. -/
def createBlocklistEntryRequests (guids : List String) (bugid name reason : String)
    (answerMin answerMax : String) : List CreationRequest :=
  let minVersion := if guids.length = 1 then (if answerMin = "" then "0" else answerMin) else "0"
  let maxVersion := if guids.length = 1 then (if answerMax = "" then "*" else answerMax) else "*"
  (createGuidStrings guids).map
    (fun guidstring => ⟨guidstring, bugid, name, reason, HARD_BLOCK, minVersion, maxVersion⟩)

/-! ## Auxiliary definitions for the statements and proofs -/

/-- The classification `readGuidData` gives a (trimmed, non-skipped) candidate:
`some v` when it is considered already blocked under record `v`, `none` when it
is new.  Exact lookup takes precedence; otherwise the first regex match in
index order wins. -/
def classifyGuid {ε : Type} (guids : List (String × ε)) (regexes : List (RegexEntry ε))
    (g : String) : Option ε :=
  match lookupMap guids g with
  | some e => some e
  | none =>
    match regexes.filter (fun r => r.test g) with
    | [] => none
    | r :: _ => some r.entry

/-- The warnings `readGuidData` emits while classifying one candidate. -/
def warnFor {ε : Type} (guids : List (String × ε)) (regexes : List (RegexEntry ε))
    (g : String) : List GuidWarning :=
  let ms := regexes.filter (fun r => r.test g)
  match lookupMap guids g with
  | some _ =>
    if ms.isEmpty then [] else [GuidWarning.singleAndRegex g (ms.map (fun r => r.source))]
  | none =>
    if ms.length > 1 then [GuidWarning.multipleRegex g (ms.map (fun r => r.source))] else []

/-- Accumulator invariant of the `readGuidData` loop: every recorded
classification agrees with `classifyGuid`. -/
def GoodAcc {ε : Type} (guids : List (String × ε)) (regexes : List (RegexEntry ε))
    (acc : GuidData ε) : Prop :=
  (∀ p ∈ acc.existing, classifyGuid guids regexes p.1 = some p.2) ∧
  (∀ x ∈ acc.newguids, classifyGuid guids regexes x = none)

/-- A ready-to-trim candidate line is skipped by `readGuidData` when its trim
is empty or starts with the comment marker. -/
def skippedLine (line : String) : Prop :=
  jsTrim line = "" ∨ (jsTrim line).data.head? = some '#'

/-- The snapshot entry is regex-shaped and its pattern is rejected by the host
regex constructor (`new RegExp` throws). -/
def regexCompileFails {δ π : Type} (compile : String → Option π) (e : SnapshotEntry δ) :
    Prop :=
  (e.guid.data.head? = some '/' ∧ compile (jsSubstring e.guid 1 (e.guid.length - 1)) = none) ∨
  (e.guid.data.head? ≠ some '/' ∧ e.guid.data.head? = some '^' ∧ compile e.guid = none)

/-- A character both `kIdSubRegex` and `kEscapeSequences` let through after
escaping: an id character other than the backslash. -/
def safeIdChar (c : Char) : Bool := idChar c && !(c = '\\')

/-- A guid over the reversible alphabet: nonempty, all characters safe. -/
def safeGuid (g : String) : Prop := g.data ≠ [] ∧ ∀ c ∈ g.data, safeIdChar c = true

/-- The `altChars [b1, ..., bk]` is `(b1)|(b2)|...|(bk)`, the alternation body of a
compiled block as `kIsMultipleIds` sees it. -/
def altChars : List (List Char) → List Char
  | [] => []
  | [b] => '(' :: b ++ [')']
  | b :: bs => '(' :: b ++ [')', '|'] ++ altChars bs

/-- A guid whose escaped form fills a block by itself. -/
def oversizedGuid (g : String) : Prop :=
  REGEX_BLOCK_MAXLEN < (regexEscape g).length + REGEX_BLOCK_DELIM.length

/-- A 4239-character guid: together with a one-character guid it packs into a
single block whose string is 4251 characters long. -/
def cexLongA : String := ⟨List.replicate 4239 'a'⟩

/-- A 4248-character guid: its escaped form plus the per-item overhead already
exceeds the maximum block length. -/
def cexLongB : String := ⟨List.replicate 4248 'a'⟩

/-- The shape conjunct of the compile-guarantee claim, at one input: every
output string of `compile` is the wrap of a nonempty list of escaped input
guids. -/
def shapeClaimAt (gs : List String) : Prop :=
  ∀ st ∈ createGuidStrings gs, ∃ parts : List String, parts ≠ [] ∧
    (∀ e ∈ parts, ∃ g ∈ gs, e = regexEscape g) ∧ st = wrapBlock parts

/-- The length conjunct of the block-length claim, at one input: every block of
`compile` wraps to a string of at most the maximum block length, unless it
holds exactly one guid. -/
def lengthClaimAt (gs : List String) : Prop :=
  ∀ b ∈ chunkGuids gs, (wrapBlock b).length ≤ REGEX_BLOCK_MAXLEN ∨ b.length = 1

/-- A host regex compiler that rejects exactly the pattern `(` — the canonical
malformed pattern (`new RegExp("(")` throws in every engine). -/
def compileFailParen : String → Option String :=
  fun p => if p = "(" then none else some p

/-- A snapshot with a well-formed exact entry, a regex-shaped entry whose
pattern `(` does not compile, and another well-formed exact entry. -/
def snapshotC4 : List (SnapshotEntry Unit) :=
  [⟨"good@x.com", 5, none, ()⟩, ⟨"/(/", 6, some 2, ()⟩, ⟨"other@x.com", 7, none, ()⟩]

/-! ## General lemmas -/

theorem dropWhile_length_le (p : α → Bool) (l : List α) :
    (l.dropWhile p).length ≤ l.length := by
  induction l with
  | nil => simp
  | cons a l ih =>
    by_cases h : p a
    · rw [List.dropWhile_cons_of_pos h]
      exact Nat.le_succ_of_le ih
    · rw [List.dropWhile_cons_of_neg h]

theorem parseId_length {xs ys : List Char} (h : parseId xs = some ys) :
    ys.length < xs.length := by
  unfold parseId at h
  split at h
  · rename_i rest
    split at h
    · exact absurd h (by simp)
    · split at h
      · rename_i r hr
        have hlen := dropWhile_length_le idChar rest
        rw [hr] at hlen
        simp only [List.length_cons] at hlen
        cases h
        simp only [List.length_cons]
        omega
      · exact absurd h (by simp)
  · exact absurd h (by simp)

theorem parseMoreFuel_congr :
    ∀ (n : Nat) (m : Nat) (r : List Char), r.length ≤ n → r.length ≤ m →
      parseMoreFuel n r = parseMoreFuel m r := by
  intro n
  induction n with
  | zero =>
    intro m r hn _
    have : r = [] := List.length_eq_zero.mp (Nat.le_zero.mp hn)
    subst this
    cases m <;> rfl
  | succ n ih =>
    intro m r hn hm
    cases r with
    | nil => cases m <;> rfl
    | cons c rest =>
      cases m with
      | zero => exact absurd hm (by simp)
      | succ m' =>
        by_cases hc : c = '|'
        · subst hc
          simp only [parseMoreFuel, if_pos rfl]
          cases hpid : parseId rest with
          | none => rfl
          | some r2 =>
            have hlt := parseId_length hpid
            simp only [List.length_cons] at hn hm
            exact ih m' r2 (by omega) (by omega)
        · simp only [parseMoreFuel, if_neg hc]


/-! ## Lemmas about the block compiler -/

theorem blockLen_append (a b : List String) :
    blockLen (a ++ b) = blockLen a + blockLen b := by
  induction a with
  | nil => simp [blockLen]
  | cons e a ih => simp [blockLen, ih]; omega

theorem le_blockLen_of_mem {e : String} {b : List String} (h : e ∈ b) :
    e.length + REGEX_BLOCK_DELIM.length ≤ blockLen b := by
  induction b with
  | nil => cases h
  | cons x b ih =>
    rcases List.mem_cons.mp h with rfl | h
    · simp [blockLen]
    · have := ih h
      simp [blockLen]
      omega

theorem chunkLoop_cons (blocks : List (List String)) (current : List String) (curlen : Nat)
    (g : String) (rest : List String) :
    chunkLoop blocks current curlen (g :: rest) =
      if curlen + (regexEscape g).length + REGEX_BLOCK_DELIM.length > REGEX_BLOCK_MAXLEN then
        chunkLoop (blocks ++ [current]) [regexEscape g]
          ((regexEscape g).length + REGEX_BLOCK_DELIM.length) rest
      else
        chunkLoop blocks (current ++ [regexEscape g])
          (curlen + (regexEscape g).length + REGEX_BLOCK_DELIM.length) rest := rfl

theorem chunkLoop_join :
    ∀ (rest : List String) (blocks : List (List String)) (current : List String) (curlen : Nat),
      (chunkLoop blocks current curlen rest).flatten =
        blocks.flatten ++ current ++ rest.map regexEscape := by
  intro rest
  induction rest with
  | nil => intro blocks current curlen; simp [chunkLoop]
  | cons g rest ih =>
    intro blocks current curlen
    rw [chunkLoop_cons]
    by_cases h :
        curlen + (regexEscape g).length + REGEX_BLOCK_DELIM.length > REGEX_BLOCK_MAXLEN
    · rw [if_pos h, ih]
      simp
    · rw [if_neg h, ih]
      simp

theorem chunkLoop_bounded :
    ∀ (rest : List String) (blocks : List (List String)) (current : List String) (curlen : Nat),
      (∀ b ∈ blocks, blockLen b ≤ REGEX_BLOCK_MAXLEN ∨ b.length ≤ 1) →
      curlen = blockLen current →
      (blockLen current ≤ REGEX_BLOCK_MAXLEN ∨ current.length ≤ 1) →
      ∀ b ∈ chunkLoop blocks current curlen rest,
        blockLen b ≤ REGEX_BLOCK_MAXLEN ∨ b.length ≤ 1 := by
  intro rest
  induction rest with
  | nil =>
    intro blocks current curlen hb hc hcb b hmem
    rw [chunkLoop] at hmem
    rcases List.mem_append.mp hmem with h | h
    · exact hb b h
    · rcases List.mem_singleton.mp h with rfl
      exact hcb
  | cons g rest ih =>
    intro blocks current curlen hb hc hcb b hmem
    rw [chunkLoop_cons] at hmem
    by_cases h :
        curlen + (regexEscape g).length + REGEX_BLOCK_DELIM.length > REGEX_BLOCK_MAXLEN
    · rw [if_pos h] at hmem
      refine ih _ _ _ ?_ ?_ ?_ b hmem
      · intro b' hb'
        rcases List.mem_append.mp hb' with h' | h'
        · exact hb b' h'
        · rcases List.mem_singleton.mp h' with rfl
          exact hcb
      · simp [blockLen]
      · right; simp
    · rw [if_neg h] at hmem
      refine ih _ _ _ hb ?_ ?_ b hmem
      · rw [blockLen_append, blockLen]
        simp [blockLen]
        omega
      · left
        rw [blockLen_append, blockLen]
        simp only [Nat.not_lt, gt_iff_lt, Nat.not_lt] at h
        simp [blockLen]
        omega

theorem chunkLoop_single :
    ∀ (rest : List String) (blocks : List (List String)) (current : List String) (curlen : Nat),
      curlen = blockLen current →
      blockLen current + blockLen (rest.map regexEscape) ≤ REGEX_BLOCK_MAXLEN →
      chunkLoop blocks current curlen rest = blocks ++ [current ++ rest.map regexEscape] := by
  intro rest
  induction rest with
  | nil => intro blocks current curlen _ _; simp [chunkLoop]
  | cons g rest ih =>
    intro blocks current curlen hc hle
    rw [chunkLoop_cons]
    simp only [List.map_cons, blockLen] at hle
    rw [if_neg (by omega)]
    rw [ih _ _ _ (by rw [blockLen_append, blockLen]; simp [blockLen]; omega)
      (by rw [blockLen_append, blockLen]; simp [blockLen]; omega)]
    simp

theorem chunkLoop_nonempty (C : Prop) :
    ∀ (rest : List String) (blocks : List (List String)) (current : List String) (curlen : Nat),
      (∀ g ∈ rest, oversizedGuid g → C) →
      (∀ b ∈ blocks, b ≠ [] ∨ C) →
      (current = [] → curlen = 0 ∧ rest ≠ []) →
      ∀ b ∈ chunkLoop blocks current curlen rest, b ≠ [] ∨ C := by
  intro rest
  induction rest with
  | nil =>
    intro blocks current curlen _ hb hc b hmem
    rw [chunkLoop] at hmem
    rcases List.mem_append.mp hmem with h | h
    · exact hb b h
    · rw [List.mem_singleton.mp h]
      left
      intro hcur
      exact absurd rfl (hc hcur).2
  | cons g rest ih =>
    intro blocks current curlen hover hb hc b hmem
    rw [chunkLoop_cons] at hmem
    by_cases h :
        curlen + (regexEscape g).length + REGEX_BLOCK_DELIM.length > REGEX_BLOCK_MAXLEN
    · rw [if_pos h] at hmem
      refine ih _ _ _ (fun g' hg' => hover g' (List.mem_cons_of_mem _ hg')) ?_ (by simp) b hmem
      intro b' hb'
      rcases List.mem_append.mp hb' with h' | h'
      · exact hb b' h'
      · rw [List.mem_singleton.mp h']
        by_cases hcur : current = []
        · right
          have h0 := (hc hcur).1
          exact hover g (List.mem_cons_self g rest)
            (by unfold oversizedGuid; omega)
        · left; exact hcur
    · rw [if_neg h] at hmem
      exact ih _ _ _ (fun g' hg' => hover g' (List.mem_cons_of_mem _ hg')) hb (by simp) b hmem


theorem strLength_data (s : String) : s.length = s.data.length := rfl

theorem sepJoinChars_two (x y : List Char) (t : List (List Char)) :
    sepJoinChars (x :: y :: t) = x ++ REGEX_BLOCK_DELIM.data ++ sepJoinChars (y :: t) := rfl


theorem sepJoinChars_length (b : List String) (h : b ≠ []) :
    (sepJoinChars (b.map String.data)).length + REGEX_BLOCK_DELIM.length = blockLen b := by
  induction b with
  | nil => exact absurd rfl h
  | cons e b ih =>
    cases b with
    | nil =>
      show (sepJoinChars [e.data]).length + _ = _
      rw [show sepJoinChars [e.data] = e.data from rfl]
      rw [blockLen, blockLen]
      simp only [strLength_data]
      omega
    | cons e2 b2 =>
      rw [List.map_cons, List.map_cons, sepJoinChars_two]
      rw [List.map_cons] at ih
      have ih2 := ih (by simp)
      rw [blockLen, ← ih2]
      simp only [List.length_append, strLength_data]
      omega

theorem wrapBlock_length (b : List String) (h : b ≠ []) :
    (wrapBlock b).length = blockLen b + 5 := by
  have hs := sepJoinChars_length b h
  have hw : (wrapBlock b).length =
      (sepJoinChars (b.map String.data)).length + 8 := by
    show (wrapChars (b.map String.data)).length = _
    rw [wrapChars]
    simp only [strLength_data, List.length_append]
    have h1 : REGEX_BLOCK_START.data.length = 4 := rfl
    have h2 : REGEX_BLOCK_END.data.length = 4 := rfl
    omega
  rw [hw]
  have hd : REGEX_BLOCK_DELIM.length = 3 := rfl
  omega

theorem wrapChars_length_consts :
    REGEX_BLOCK_START.data.length = 4 ∧ REGEX_BLOCK_END.data.length = 4 ∧
      REGEX_BLOCK_DELIM.length = 3 := by
  exact ⟨rfl, rfl, rfl⟩

theorem wrapBlock_nil_length : (wrapBlock []).length = 8 := rfl

theorem escChars_replicate (n : Nat) (c : Char) (h : isEscapedChar c = false) :
    escChars (List.replicate n c) = List.replicate n c := by
  induction n with
  | zero => rfl
  | succ n ih =>
    rw [List.replicate_succ, escChars, escChar, if_neg (by simp [h]), ih,
      ← List.replicate_succ]
    rfl

theorem regexEscape_cexLongA : regexEscape cexLongA = cexLongA := by
  show (⟨escChars (List.replicate 4239 'a')⟩ : String) = cexLongA
  rw [escChars_replicate _ _ (by decide)]
  rfl

theorem regexEscape_cexLongB : regexEscape cexLongB = cexLongB := by
  show (⟨escChars (List.replicate 4248 'a')⟩ : String) = cexLongB
  rw [escChars_replicate _ _ (by decide)]
  rfl

theorem cexLongA_length : cexLongA.length = 4239 := by
  rw [strLength_data]
  show (List.replicate 4239 'a').length = 4239
  rw [List.length_replicate]

theorem cexLongB_length : cexLongB.length = 4248 := by
  rw [strLength_data]
  show (List.replicate 4248 'a').length = 4248
  rw [List.length_replicate]

theorem chunkGuids_cexA : chunkGuids [cexLongA, "b"] = [[cexLongA, "b"]] := by
  have hA : (regexEscape cexLongA).length = 4239 := by
    rw [regexEscape_cexLongA, cexLongA_length]
  have hB : (regexEscape "b").length = 1 := rfl
  have hD : REGEX_BLOCK_DELIM.length = 3 := rfl
  have hM : REGEX_BLOCK_MAXLEN = 4250 := rfl
  unfold chunkGuids
  rw [chunkLoop_cons, if_neg (by omega), chunkLoop_cons, if_neg (by omega), chunkLoop]
  rw [regexEscape_cexLongA, show regexEscape "b" = "b" from rfl]
  rfl

theorem chunkGuids_cexB : chunkGuids [cexLongB, "b"] = [[], [cexLongB], ["b"]] := by
  have hA : (regexEscape cexLongB).length = 4248 := by
    rw [regexEscape_cexLongB, cexLongB_length]
  have hB : (regexEscape "b").length = 1 := rfl
  have hD : REGEX_BLOCK_DELIM.length = 3 := rfl
  have hM : REGEX_BLOCK_MAXLEN = 4250 := rfl
  unfold chunkGuids
  rw [chunkLoop_cons, if_pos (by omega), chunkLoop_cons, if_pos (by omega), chunkLoop]
  rw [regexEscape_cexLongB, show regexEscape "b" = "b" from rfl]
  rfl

theorem wrapBlock_cexA_length : (wrapBlock [cexLongA, "b"]).length = 4251 := by
  rw [wrapBlock_length _ (by simp)]
  rw [blockLen, blockLen, blockLen, cexLongA_length]
  rfl

/-! ## Lemmas about guid classification -/

theorem mem_mapSet_self {ε : Type} (m : List (String × ε)) (k : String) (v : ε) :
    (k, v) ∈ mapSet m k v := by
  unfold mapSet
  by_cases hany : m.any (fun p => p.1 = k)
  · rw [if_pos hany]
    simp only [List.any_eq_true, decide_eq_true_eq] at hany
    obtain ⟨p, hp, hpk⟩ := hany
    exact List.mem_map.mpr ⟨p, hp, by rw [if_pos hpk]⟩
  · rw [if_neg hany]
    exact List.mem_append_right _ (List.mem_singleton_self _)

theorem mem_mapSet_elim {ε : Type} {m : List (String × ε)} {k : String} {v : ε}
    {p : String × ε} (h : p ∈ mapSet m k v) : p = (k, v) ∨ (p ∈ m ∧ p.1 ≠ k) := by
  unfold mapSet at h
  by_cases hany : m.any (fun q => q.1 = k)
  · rw [if_pos hany] at h
    obtain ⟨q, hq, hqe⟩ := List.mem_map.mp h
    by_cases hqk : q.1 = k
    · rw [if_pos hqk] at hqe
      left; exact hqe.symm
    · rw [if_neg hqk] at hqe
      right; rw [← hqe]; exact ⟨hq, hqk⟩
  · rw [if_neg hany] at h
    rcases List.mem_append.mp h with h | h
    · right
      refine ⟨h, fun hpk => hany ?_⟩
      exact List.any_eq_true.mpr ⟨p, h, by simp [hpk]⟩
    · left; exact List.mem_singleton.mp h

theorem mem_mapSet_keep {ε : Type} {m : List (String × ε)} {g : String} {w : ε}
    (k : String) (v : ε) (hp : (g, w) ∈ m) (hcase : g ≠ k ∨ w = v) :
    (g, w) ∈ mapSet m k v := by
  unfold mapSet
  by_cases hany : m.any (fun q => q.1 = k)
  · rw [if_pos hany]
    refine List.mem_map.mpr ⟨(g, w), hp, ?_⟩
    by_cases hgk : g = k
    · rcases hcase with hne | hv
      · exact absurd hgk hne
      · rw [if_pos (show (g, w).1 = k from hgk), hgk, hv]
    · rw [if_neg (show ¬ (g, w).1 = k from hgk)]
  · rw [if_neg hany]
    exact List.mem_append_left _ hp

theorem mem_setAdd_self (s : List String) (x : String) : x ∈ setAdd s x := by
  unfold setAdd
  by_cases h : x ∈ s
  · rw [if_pos h]; exact h
  · rw [if_neg h]; exact List.mem_append_right _ (List.mem_singleton_self _)

theorem mem_setAdd_of_mem {s : List String} {y : String} (hy : y ∈ s) (x : String) :
    y ∈ setAdd s x := by
  unfold setAdd
  by_cases h : x ∈ s
  · rw [if_pos h]; exact hy
  · rw [if_neg h]; exact List.mem_append_left _ hy

theorem mem_setAdd_elim {s : List String} {x y : String} (h : y ∈ setAdd s x) :
    y ∈ s ∨ y = x := by
  unfold setAdd at h
  by_cases hx : x ∈ s
  · rw [if_pos hx] at h; left; exact h
  · rw [if_neg hx] at h
    rcases List.mem_append.mp h with h | h
    · left; exact h
    · right; exact List.mem_singleton.mp h

theorem skip_cond_false {line : String} (h : ¬ skippedLine line) :
    (decide (jsTrim line = "") || decide ((jsTrim line).data.head? = some '#')) = false := by
  unfold skippedLine at h
  push_neg at h
  simp [h.1, h.2]

theorem readGuidStep_skip {ε : Type} (guids : List (String × ε))
    (regexes : List (RegexEntry ε)) (acc : GuidData ε) (line : String)
    (h : skippedLine line) : readGuidStep guids regexes acc line = acc := by
  unfold readGuidStep
  rw [if_pos]
  unfold skippedLine at h
  rcases h with h | h <;> simp [h]

theorem readGuidStep_char {ε : Type} (guids : List (String × ε))
    (regexes : List (RegexEntry ε)) (acc : GuidData ε) (line : String)
    (h : ¬ skippedLine line) :
    (readGuidStep guids regexes acc line).existing =
      (match classifyGuid guids regexes (jsTrim line) with
       | some v => mapSet acc.existing (jsTrim line) v
       | none => acc.existing) ∧
    (readGuidStep guids regexes acc line).newguids =
      (match classifyGuid guids regexes (jsTrim line) with
       | some _ => acc.newguids
       | none => setAdd acc.newguids (jsTrim line)) ∧
    (readGuidStep guids regexes acc line).warnings =
      acc.warnings ++ warnFor guids regexes (jsTrim line) := by
  unfold readGuidStep classifyGuid warnFor
  rw [if_neg (by rw [skip_cond_false h]; simp)]
  cases hl : lookupMap guids (jsTrim line) with
  | some entry =>
    cases hm : regexes.filter (fun r => r.test (jsTrim line)) with
    | nil => simp [hl, hm]
    | cons r rs => simp [hl, hm]
  | none =>
    cases hm : regexes.filter (fun r => r.test (jsTrim line)) with
    | nil => simp [hl, hm]
    | cons r rs =>
      cases rs with
      | nil => simp [hl, hm]
      | cons r2 rs2 => simp [hl, hm]

theorem GoodAcc_init {ε : Type} (guids : List (String × ε)) (regexes : List (RegexEntry ε)) :
    GoodAcc guids regexes (⟨[], [], []⟩ : GuidData ε) :=
  ⟨by simp, by simp⟩

theorem readGuidStep_good {ε : Type} {guids : List (String × ε)}
    {regexes : List (RegexEntry ε)} {acc : GuidData ε}
    (hg : GoodAcc guids regexes acc) (line : String) :
    GoodAcc guids regexes (readGuidStep guids regexes acc line) := by
  by_cases hskip : skippedLine line
  · rw [readGuidStep_skip _ _ _ _ hskip]; exact hg
  · obtain ⟨he, hn, _⟩ := readGuidStep_char guids regexes acc line hskip
    constructor
    · intro p hp
      rw [he] at hp
      cases hc : classifyGuid guids regexes (jsTrim line) with
      | some v =>
        rw [hc] at hp
        rcases mem_mapSet_elim hp with hpe | ⟨hpm, _⟩
        · rw [hpe]; exact hc
        · exact hg.1 p hpm
      | none =>
        rw [hc] at hp
        exact hg.1 p hp
    · intro x hx
      rw [hn] at hx
      cases hc : classifyGuid guids regexes (jsTrim line) with
      | some v =>
        rw [hc] at hx
        exact hg.2 x hx
      | none =>
        rw [hc] at hx
        rcases mem_setAdd_elim hx with hxs | hxe
        · exact hg.2 x hxs
        · rw [hxe]; exact hc

theorem readGuidStep_mono_existing {ε : Type} {guids : List (String × ε)}
    {regexes : List (RegexEntry ε)} {acc : GuidData ε}
    (hg : GoodAcc guids regexes acc) {g : String} {w : ε}
    (hp : (g, w) ∈ acc.existing) (line : String) :
    (g, w) ∈ (readGuidStep guids regexes acc line).existing := by
  by_cases hskip : skippedLine line
  · rw [readGuidStep_skip _ _ _ _ hskip]; exact hp
  · obtain ⟨he, _, _⟩ := readGuidStep_char guids regexes acc line hskip
    rw [he]
    cases hc : classifyGuid guids regexes (jsTrim line) with
    | some v =>
      refine mem_mapSet_keep _ _ hp ?_
      by_cases hgl : g = jsTrim line
      · right
        have hcw := hg.1 (g, w) hp
        rw [hgl] at hcw
        rw [hcw] at hc
        exact (Option.some.injEq _ _ ▸ hc).symm ▸ rfl
      · left; exact hgl
    | none => exact hp

theorem readGuidStep_mono_new {ε : Type} (guids : List (String × ε))
    (regexes : List (RegexEntry ε)) (acc : GuidData ε) {x : String}
    (hx : x ∈ acc.newguids) (line : String) :
    x ∈ (readGuidStep guids regexes acc line).newguids := by
  by_cases hskip : skippedLine line
  · rw [readGuidStep_skip _ _ _ _ hskip]; exact hx
  · obtain ⟨_, hn, _⟩ := readGuidStep_char guids regexes acc line hskip
    rw [hn]
    cases hc : classifyGuid guids regexes (jsTrim line) with
    | some v => exact hx
    | none => exact mem_setAdd_of_mem hx _

theorem readGuidStep_mono_warn {ε : Type} (guids : List (String × ε))
    (regexes : List (RegexEntry ε)) (acc : GuidData ε) {w : GuidWarning}
    (hw : w ∈ acc.warnings) (line : String) :
    w ∈ (readGuidStep guids regexes acc line).warnings := by
  by_cases hskip : skippedLine line
  · rw [readGuidStep_skip _ _ _ _ hskip]; exact hw
  · obtain ⟨_, _, hww⟩ := readGuidStep_char guids regexes acc line hskip
    rw [hww]
    exact List.mem_append_left _ hw

theorem readGuidGo_good {ε : Type} {guids : List (String × ε)}
    {regexes : List (RegexEntry ε)} :
    ∀ (ls : List String) (acc : GuidData ε), GoodAcc guids regexes acc →
      GoodAcc guids regexes (readGuidGo guids regexes acc ls) := by
  intro ls
  induction ls with
  | nil => intro acc hg; exact hg
  | cons l ls ih =>
    intro acc hg
    exact ih _ (readGuidStep_good hg l)

theorem readGuidGo_mono_existing {ε : Type} {guids : List (String × ε)}
    {regexes : List (RegexEntry ε)} :
    ∀ (ls : List String) (acc : GuidData ε), GoodAcc guids regexes acc →
      ∀ {g : String} {w : ε}, (g, w) ∈ acc.existing →
        (g, w) ∈ (readGuidGo guids regexes acc ls).existing := by
  intro ls
  induction ls with
  | nil => intro acc _ g w hp; exact hp
  | cons l ls ih =>
    intro acc hg g w hp
    exact ih _ (readGuidStep_good hg l) (readGuidStep_mono_existing hg hp l)

theorem readGuidGo_mono_new {ε : Type} {guids : List (String × ε)}
    {regexes : List (RegexEntry ε)} :
    ∀ (ls : List String) (acc : GuidData ε) {x : String}, x ∈ acc.newguids →
      x ∈ (readGuidGo guids regexes acc ls).newguids := by
  intro ls
  induction ls with
  | nil => intro acc x hx; exact hx
  | cons l ls ih =>
    intro acc x hx
    exact ih _ (readGuidStep_mono_new guids regexes acc hx l)

theorem readGuidGo_mono_warn {ε : Type} {guids : List (String × ε)}
    {regexes : List (RegexEntry ε)} :
    ∀ (ls : List String) (acc : GuidData ε) {w : GuidWarning}, w ∈ acc.warnings →
      w ∈ (readGuidGo guids regexes acc ls).warnings := by
  intro ls
  induction ls with
  | nil => intro acc w hw; exact hw
  | cons l ls ih =>
    intro acc w hw
    exact ih _ (readGuidStep_mono_warn guids regexes acc hw l)

theorem readGuidGo_append {ε : Type} (guids : List (String × ε))
    (regexes : List (RegexEntry ε)) :
    ∀ (xs ys : List String) (acc : GuidData ε),
      readGuidGo guids regexes acc (xs ++ ys) =
        readGuidGo guids regexes (readGuidGo guids regexes acc xs) ys := by
  intro xs
  induction xs with
  | nil => intro ys acc; rfl
  | cons l xs ih =>
    intro ys acc
    exact ih ys (readGuidStep guids regexes acc l)

/-- Core partition fact shared by several claims: any filtered candidate of
the input ends up in exactly one of `existing` and `newguids`, according to
its classification. -/
theorem readGuidData_partition_core {ε : Type} (lines : List String)
    (guids : List (String × ε)) (regexes : List (RegexEntry ε)) {line : String}
    (hline : line ∈ lines) (hskip : ¬ skippedLine line) :
    ((∃ v, (jsTrim line, v) ∈ (readGuidData lines guids regexes).existing) ∧
      jsTrim line ∉ (readGuidData lines guids regexes).newguids) ∨
    ((∀ v, (jsTrim line, v) ∉ (readGuidData lines guids regexes).existing) ∧
      jsTrim line ∈ (readGuidData lines guids regexes).newguids) := by
  obtain ⟨pre, post, rfl⟩ := List.append_of_mem hline
  unfold readGuidData
  rw [readGuidGo_append]
  set acc0 := readGuidGo guids regexes ⟨[], [], []⟩ pre with hacc0
  have hg0 : GoodAcc guids regexes acc0 := readGuidGo_good pre _ (GoodAcc_init guids regexes)
  show _ ∨ _
  rw [show line :: post = [line] ++ post from rfl, readGuidGo_append]
  set acc1 := readGuidGo guids regexes acc0 [line] with hacc1
  have hstep : acc1 = readGuidStep guids regexes acc0 line := rfl
  have hg1 : GoodAcc guids regexes acc1 := by
    rw [hstep]; exact readGuidStep_good hg0 line
  have hgfin : GoodAcc guids regexes (readGuidGo guids regexes acc1 post) :=
    readGuidGo_good post _ hg1
  obtain ⟨he, hn, _⟩ := readGuidStep_char guids regexes acc0 line hskip
  cases hc : classifyGuid guids regexes (jsTrim line) with
  | some v =>
    left
    constructor
    · refine ⟨v, readGuidGo_mono_existing post _ hg1 ?_⟩
      rw [hstep, he, hc]
      exact mem_mapSet_self _ _ _
    · intro hmem
      have := hgfin.2 _ hmem
      rw [hc] at this
      exact Option.noConfusion this
  | none =>
    right
    constructor
    · intro v hmem
      have := hgfin.1 _ hmem
      rw [hc] at this
      exact Option.noConfusion this
    · refine readGuidGo_mono_new post _ ?_
      rw [hstep, hn, hc]
      exact mem_setAdd_self _ _

/-- Classified-as-existing candidates land in `existing` under their
classification value, never in `newguids`, and the warnings computed for them
are emitted. -/
theorem readGuidData_mem_of_classify {ε : Type} (lines : List String)
    (guids : List (String × ε)) (regexes : List (RegexEntry ε)) {line : String} {v : ε}
    (hline : line ∈ lines) (hskip : ¬ skippedLine line)
    (hc : classifyGuid guids regexes (jsTrim line) = some v) :
    (jsTrim line, v) ∈ (readGuidData lines guids regexes).existing ∧
    jsTrim line ∉ (readGuidData lines guids regexes).newguids ∧
    ∀ w ∈ warnFor guids regexes (jsTrim line),
      w ∈ (readGuidData lines guids regexes).warnings := by
  obtain ⟨pre, post, rfl⟩ := List.append_of_mem hline
  unfold readGuidData
  rw [readGuidGo_append]
  set acc0 := readGuidGo guids regexes ⟨[], [], []⟩ pre with hacc0
  have hg0 : GoodAcc guids regexes acc0 := readGuidGo_good pre _ (GoodAcc_init guids regexes)
  rw [show line :: post = [line] ++ post from rfl, readGuidGo_append]
  set acc1 := readGuidGo guids regexes acc0 [line] with hacc1
  have hstep : acc1 = readGuidStep guids regexes acc0 line := rfl
  have hg1 : GoodAcc guids regexes acc1 := by
    rw [hstep]; exact readGuidStep_good hg0 line
  have hgfin : GoodAcc guids regexes (readGuidGo guids regexes acc1 post) :=
    readGuidGo_good post _ hg1
  obtain ⟨he, _, hw⟩ := readGuidStep_char guids regexes acc0 line hskip
  refine ⟨?_, ?_, ?_⟩
  · refine readGuidGo_mono_existing post _ hg1 ?_
    rw [hstep, he, hc]
    exact mem_mapSet_self _ _ _
  · intro hmem
    have := hgfin.2 _ hmem
    rw [hc] at this
    exact Option.noConfusion this
  · intro w hwmem
    refine readGuidGo_mono_warn post _ ?_
    rw [hstep, hw]
    exact List.mem_append_right _ hwmem

/-! ## Lemmas about index construction -/

theorem normalizeEntry_guid {δ : Type} (e : SnapshotEntry δ) :
    (normalizeEntry e).guid = e.guid := by
  unfold normalizeEntry
  split <;> rfl

theorem loadBlocklistGo_err {δ π : Type} (compile : String → Option π) :
    ∀ (entries : List (SnapshotEntry δ)) (guids : List (String × SnapshotEntry δ))
      (regexes : List (π × SnapshotEntry δ)),
      (∃ e ∈ entries, regexCompileFails compile e) →
      ∃ msg, loadBlocklistGo compile guids regexes entries = .error msg := by
  intro entries
  induction entries with
  | nil =>
    intro guids regexes h
    obtain ⟨e, he, _⟩ := h
    cases he
  | cons e0 rest ih =>
    intro guids regexes h
    unfold loadBlocklistGo
    rw [normalizeEntry_guid]
    by_cases hslash : e0.guid.data.head? = some '/'
    · rw [if_pos hslash]
      cases hcmp : compile (jsSubstring e0.guid 1 (e0.guid.length - 1)) with
      | none => exact ⟨_, rfl⟩
      | some p =>
        obtain ⟨e, he, hf⟩ := h
        rcases List.mem_cons.mp he with rfl | he2
        · rcases hf with ⟨_, hnone⟩ | ⟨hne, _, _⟩
          · rw [hcmp] at hnone; exact Option.noConfusion hnone
          · exact absurd hslash hne
        · exact ih _ _ ⟨e, he2, hf⟩
    · rw [if_neg hslash]
      by_cases hcaret : e0.guid.data.head? = some '^'
      · rw [if_pos hcaret]
        cases hcmp : compile e0.guid with
        | none => exact ⟨_, rfl⟩
        | some p =>
          obtain ⟨e, he, hf⟩ := h
          rcases List.mem_cons.mp he with rfl | he2
          · rcases hf with ⟨hslash2, _⟩ | ⟨_, _, hnone⟩
            · exact absurd hslash2 hslash
            · rw [hcmp] at hnone; exact Option.noConfusion hnone
          · exact ih _ _ ⟨e, he2, hf⟩
      · rw [if_neg hcaret]
        obtain ⟨e, he, hf⟩ := h
        rcases List.mem_cons.mp he with rfl | he2
        · rcases hf with ⟨hslash2, _⟩ | ⟨_, hcaret2, _⟩
          · exact absurd hslash2 hslash
          · exact absurd hcaret2 hcaret
        · exact ih _ _ ⟨e, he2, hf⟩

theorem loadBlocklistGo_regex_mono {δ π : Type} (compile : String → Option π) :
    ∀ (entries : List (SnapshotEntry δ)) (guids : List (String × SnapshotEntry δ))
      (regexes : List (π × SnapshotEntry δ)) (res : BlocklistMaps δ π),
      loadBlocklistGo compile guids regexes entries = .ok res →
      ∀ x ∈ regexes, x ∈ res.regexes := by
  intro entries
  induction entries with
  | nil =>
    intro guids regexes res h x hx
    cases h
    exact hx
  | cons e0 rest ih =>
    intro guids regexes res h x hx
    unfold loadBlocklistGo at h
    by_cases hslash : (normalizeEntry e0).guid.data.head? = some '/'
    · rw [if_pos hslash] at h
      cases hcmp : compile (jsSubstring (normalizeEntry e0).guid
          1 ((normalizeEntry e0).guid.length - 1)) with
      | none => rw [hcmp] at h; exact Except.noConfusion h
      | some p =>
        rw [hcmp] at h
        exact ih _ _ _ h x (List.mem_append_left _ hx)
    · rw [if_neg hslash] at h
      by_cases hcaret : (normalizeEntry e0).guid.data.head? = some '^'
      · rw [if_pos hcaret] at h
        cases hcmp : compile (normalizeEntry e0).guid with
        | none => rw [hcmp] at h; exact Except.noConfusion h
        | some p =>
          rw [hcmp] at h
          exact ih _ _ _ h x (List.mem_append_left _ hx)
      · rw [if_neg hcaret] at h
        exact ih _ _ _ h x hx

theorem loadBlocklistGo_caret {δ π : Type} (compile : String → Option π) :
    ∀ (entries : List (SnapshotEntry δ)) (guids : List (String × SnapshotEntry δ))
      (regexes : List (π × SnapshotEntry δ)) (res : BlocklistMaps δ π),
      loadBlocklistGo compile guids regexes entries = .ok res →
      ∀ e ∈ entries, e.guid.data.head? ≠ some '/' → e.guid.data.head? = some '^' →
        ∃ p, compile e.guid = some p ∧ (p, normalizeEntry e) ∈ res.regexes := by
  intro entries
  induction entries with
  | nil => intro guids regexes res h e he; cases he
  | cons e0 rest ih =>
    intro guids regexes res h e he hslash hcaret
    unfold loadBlocklistGo at h
    rcases List.mem_cons.mp he with rfl | he2
    · rw [normalizeEntry_guid] at h
      rw [if_neg hslash, if_pos hcaret] at h
      cases hcmp : compile e.guid with
      | none => rw [hcmp] at h; exact Except.noConfusion h
      | some p =>
        rw [hcmp] at h
        exact ⟨p, rfl, loadBlocklistGo_regex_mono compile rest _ _ res h _
          (List.mem_append_right _ (List.mem_singleton_self _))⟩
    · by_cases hslash0 : (normalizeEntry e0).guid.data.head? = some '/'
      · rw [if_pos hslash0] at h
        cases hcmp : compile (jsSubstring (normalizeEntry e0).guid
            1 ((normalizeEntry e0).guid.length - 1)) with
        | none => rw [hcmp] at h; exact Except.noConfusion h
        | some p => rw [hcmp] at h; exact ih _ _ _ h e he2 hslash hcaret
      · rw [if_neg hslash0] at h
        by_cases hcaret0 : (normalizeEntry e0).guid.data.head? = some '^'
        · rw [if_pos hcaret0] at h
          cases hcmp : compile (normalizeEntry e0).guid with
          | none => rw [hcmp] at h; exact Except.noConfusion h
          | some p => rw [hcmp] at h; exact ih _ _ _ h e he2 hslash hcaret
        · rw [if_neg hcaret0] at h
          exact ih _ _ _ h e he2 hslash hcaret

theorem loadBlocklistGo_guid_keys {δ π : Type} (compile : String → Option π) :
    ∀ (entries : List (SnapshotEntry δ)) (guids : List (String × SnapshotEntry δ))
      (regexes : List (π × SnapshotEntry δ)) (res : BlocklistMaps δ π),
      loadBlocklistGo compile guids regexes entries = .ok res →
      ∀ k v, (k, v) ∈ res.guids →
        (∃ w, (k, w) ∈ guids) ∨
        ∃ e ∈ entries, e.guid = k ∧ e.guid.data.head? ≠ some '/' ∧
          e.guid.data.head? ≠ some '^' := by
  intro entries
  induction entries with
  | nil =>
    intro guids regexes res h k v hk
    cases h
    exact Or.inl ⟨v, hk⟩
  | cons e0 rest ih =>
    intro guids regexes res h k v hk
    unfold loadBlocklistGo at h
    by_cases hslash : (normalizeEntry e0).guid.data.head? = some '/'
    · rw [if_pos hslash] at h
      cases hcmp : compile (jsSubstring (normalizeEntry e0).guid
          1 ((normalizeEntry e0).guid.length - 1)) with
      | none => rw [hcmp] at h; exact Except.noConfusion h
      | some p =>
        rw [hcmp] at h
        rcases ih _ _ _ h k v hk with hin | ⟨e, he, hrest⟩
        · exact Or.inl hin
        · exact Or.inr ⟨e, List.mem_cons_of_mem _ he, hrest⟩
    · rw [if_neg hslash] at h
      by_cases hcaret : (normalizeEntry e0).guid.data.head? = some '^'
      · rw [if_pos hcaret] at h
        cases hcmp : compile (normalizeEntry e0).guid with
        | none => rw [hcmp] at h; exact Except.noConfusion h
        | some p =>
          rw [hcmp] at h
          rcases ih _ _ _ h k v hk with hin | ⟨e, he, hrest⟩
          · exact Or.inl hin
          · exact Or.inr ⟨e, List.mem_cons_of_mem _ he, hrest⟩
      · rw [if_neg hcaret] at h
        rcases ih _ _ _ h k v hk with ⟨w, hw⟩ | ⟨e, he, hrest⟩
        · rcases mem_mapSet_elim hw with hwe | ⟨hwm, _⟩
          · refine Or.inr ⟨e0, List.mem_cons_self _ _, ?_, ?_, ?_⟩ <;>
              rw [show e0.guid = (normalizeEntry e0).guid from (normalizeEntry_guid e0).symm]
            · exact (congrArg Prod.fst hwe).symm
            · exact hslash
            · exact hcaret
          · exact Or.inl ⟨w, hwm⟩
        · exact Or.inr ⟨e, List.mem_cons_of_mem _ he, hrest⟩

theorem keys_mapSet_keep {ε : Type} {m : List (String × ε)} {g : String}
    (hg : ∃ w, (g, w) ∈ m) (k : String) (v : ε) : ∃ w, (g, w) ∈ mapSet m k v := by
  obtain ⟨w, hw⟩ := hg
  by_cases hgk : g = k
  · exact ⟨v, hgk ▸ mem_mapSet_self m k v⟩
  · exact ⟨w, mem_mapSet_keep k v hw (Or.inl hgk)⟩

theorem loadBlocklistGo_exact_mem {δ π : Type} (compile : String → Option π) :
    ∀ (entries : List (SnapshotEntry δ)) (guids : List (String × SnapshotEntry δ))
      (regexes : List (π × SnapshotEntry δ)) (res : BlocklistMaps δ π),
      loadBlocklistGo compile guids regexes entries = .ok res →
      (∀ e ∈ entries, e.guid.data.head? ≠ some '/' → e.guid.data.head? ≠ some '^' →
        ∃ w, (e.guid, w) ∈ res.guids) ∧
      (∀ g, (∃ w, (g, w) ∈ guids) → ∃ w, (g, w) ∈ res.guids) := by
  intro entries
  induction entries with
  | nil =>
    intro guids regexes res h
    cases h
    exact ⟨fun e he => absurd he (List.not_mem_nil e), fun g hg => hg⟩
  | cons e0 rest ih =>
    intro guids regexes res h
    unfold loadBlocklistGo at h
    by_cases hslash : (normalizeEntry e0).guid.data.head? = some '/'
    · rw [if_pos hslash] at h
      cases hcmp : compile (jsSubstring (normalizeEntry e0).guid
          1 ((normalizeEntry e0).guid.length - 1)) with
      | none => rw [hcmp] at h; exact Except.noConfusion h
      | some p =>
        rw [hcmp] at h
        obtain ⟨hthis, hkeep⟩ := ih _ _ _ h
        refine ⟨?_, hkeep⟩
        intro e he h1 h2
        rcases List.mem_cons.mp he with rfl | he2
        · rw [normalizeEntry_guid] at hslash
          exact absurd hslash h1
        · exact hthis e he2 h1 h2
    · rw [if_neg hslash] at h
      by_cases hcaret : (normalizeEntry e0).guid.data.head? = some '^'
      · rw [if_pos hcaret] at h
        cases hcmp : compile (normalizeEntry e0).guid with
        | none => rw [hcmp] at h; exact Except.noConfusion h
        | some p =>
          rw [hcmp] at h
          obtain ⟨hthis, hkeep⟩ := ih _ _ _ h
          refine ⟨?_, hkeep⟩
          intro e he h1 h2
          rcases List.mem_cons.mp he with rfl | he2
          · rw [normalizeEntry_guid] at hcaret
            exact absurd hcaret h2
          · exact hthis e he2 h1 h2
      · rw [if_neg hcaret] at h
        obtain ⟨hthis, hkeep⟩ := ih _ _ _ h
        refine ⟨?_, fun g hg => hkeep g (keys_mapSet_keep hg _ _)⟩
        intro e he h1 h2
        rcases List.mem_cons.mp he with rfl | he2
        · refine hkeep _ ?_
          rw [show e.guid = (normalizeEntry e).guid from (normalizeEntry_guid e).symm]
          exact ⟨normalizeEntry e, mem_mapSet_self _ _ _⟩
        · exact hthis e he2 h1 h2

/-! ## Lemmas about the reversible alphabet and escaping -/

theorem safeIdChar_idChar {c : Char} (h : safeIdChar c = true) : idChar c = true := by
  simp only [safeIdChar, Bool.and_eq_true] at h
  exact h.1

theorem safeIdChar_not_bs {c : Char} (h : safeIdChar c = true) : c ≠ '\\' := by
  simp only [safeIdChar, Bool.and_eq_true, Bool.not_eq_true', decide_eq_false_iff_not] at h
  exact h.2

theorem safeIdChar_ne {c d : Char} (h : safeIdChar c = true) (hd : safeIdChar d = false) :
    c ≠ d := by
  intro hcd
  rw [hcd, hd] at h
  exact Bool.noConfusion h

theorem safe_escaped_cases {c : Char} (hs : safeIdChar c = true)
    (he : isEscapedChar c = true) : c = '.' ∨ c = lcurly ∨ c = rcurly := by
  unfold isEscapedChar at he
  simp only [Bool.or_eq_true, decide_eq_true_eq] at he
  rcases he with ((((((((((((h | h) | h) | h) | h) | h) | h) | h) | h) | h) | h) | h) | h) | h <;>
    subst h <;>
    first
      | exact Or.inl rfl
      | exact Or.inr (Or.inl rfl)
      | exact Or.inr (Or.inr rfl)
      | exact absurd hs (by decide)

theorem escChars_append (a b : List Char) :
    escChars (a ++ b) = escChars a ++ escChars b := by
  induction a with
  | nil => rfl
  | cons c a ih =>
    show escChar c ++ escChars (a ++ b) = (escChar c ++ escChars a) ++ escChars b
    rw [ih, List.append_assoc]

theorem escChar_ne_nil (c : Char) : escChar c ≠ [] := by
  unfold escChar
  split <;> simp

theorem escChar_escaped {c : Char} (h : isEscapedChar c = true) :
    escChar c = ['\\', c] := by
  unfold escChar
  rw [if_pos h]

theorem escChar_plain {c : Char} (h : ¬ isEscapedChar c = true) :
    escChar c = [c] := by
  unfold escChar
  rw [if_neg h]

theorem escChars_ne_nil {l : List Char} (h : l ≠ []) : escChars l ≠ [] := by
  cases l with
  | nil => exact absurd rfl h
  | cons c rest =>
    show escChar c ++ escChars rest ≠ []
    intro happ
    exact escChar_ne_nil c (List.append_eq_nil.mp happ).1

theorem escChars_all_idChar {l : List Char} (h : ∀ c ∈ l, safeIdChar c = true) :
    ∀ x ∈ escChars l, idChar x = true := by
  induction l with
  | nil => intro x hx; cases hx
  | cons c rest ih =>
    have hc := h c (List.mem_cons_self _ _)
    intro x hx
    rcases List.mem_append.mp hx with hx | hx
    · by_cases hesc : isEscapedChar c = true
      · rw [escChar_escaped hesc] at hx
        rcases List.mem_cons.mp hx with rfl | hx2
        · decide
        · have hxc := List.mem_singleton.mp hx2
          rw [hxc]
          exact safeIdChar_idChar hc
      · rw [escChar_plain hesc] at hx
        have hxc := List.mem_singleton.mp hx
        rw [hxc]
        exact safeIdChar_idChar hc
    · exact ih (fun d hd => h d (List.mem_cons_of_mem _ hd)) x hx

theorem escChars_filter_bs {l : List Char} (h : ∀ c ∈ l, safeIdChar c = true) :
    (escChars l).filter (fun c => c ≠ '\\') = l := by
  induction l with
  | nil => rfl
  | cons c rest ih =>
    have hc := h c (List.mem_cons_self _ _)
    have hrest := ih (fun d hd => h d (List.mem_cons_of_mem _ hd))
    show ((escChar c ++ escChars rest).filter (fun x => x ≠ '\\')) = c :: rest
    rw [List.filter_append, hrest]
    by_cases hesc : isEscapedChar c = true
    · rw [escChar_escaped hesc]
      rw [show (['\\', c].filter (fun x => x ≠ '\\')) =
          [c].filter (fun x => x ≠ '\\') from by simp]
      rw [show ([c].filter (fun x => x ≠ '\\')) = [c] from by
        simp [safeIdChar_not_bs hc]]
      rfl
    · rw [escChar_plain hesc]
      rw [show ([c].filter (fun x => x ≠ '\\')) = [c] from by
        simp [safeIdChar_not_bs hc]]
      rfl

theorem hasBadEscape_cons_ne {c : Char} (h : c ≠ '\\') (t : List Char) :
    hasBadEscape (c :: t) = hasBadEscape t := by
  conv_lhs => unfold hasBadEscape
  rw [if_neg h]

theorem hasBadEscape_bs_good {c : Char} (hgood : c = '.' ∨ c = lcurly ∨ c = rcurly)
    (t : List Char) : hasBadEscape ('\\' :: c :: t) = hasBadEscape (c :: t) := by
  conv_lhs => unfold hasBadEscape
  rw [if_pos rfl]
  show (if ((c = '.' || c = lcurly || c = rcurly) = true)
    then hasBadEscape (c :: t) else true) = hasBadEscape (c :: t)
  rw [if_pos (by rcases hgood with h | h | h <;> simp [h])]

theorem hasBadEscape_append_nobs {xs : List Char} (h : ∀ c ∈ xs, c ≠ '\\')
    (ys : List Char) : hasBadEscape (xs ++ ys) = hasBadEscape ys := by
  induction xs with
  | nil => rfl
  | cons c rest ih =>
    rw [List.cons_append, hasBadEscape_cons_ne (h c (List.mem_cons_self _ _))]
    exact ih (fun d hd => h d (List.mem_cons_of_mem _ hd))

theorem hasBadEscape_escChars {l : List Char} (h : ∀ c ∈ l, safeIdChar c = true)
    (ys : List Char) : hasBadEscape (escChars l ++ ys) = hasBadEscape ys := by
  induction l with
  | nil => rfl
  | cons c rest ih =>
    have hc := h c (List.mem_cons_self _ _)
    have hrest := ih (fun d hd => h d (List.mem_cons_of_mem _ hd))
    show hasBadEscape ((escChar c ++ escChars rest) ++ ys) = hasBadEscape ys
    rw [List.append_assoc]
    by_cases hesc : isEscapedChar c = true
    · rw [escChar_escaped hesc]
      rw [show (['\\', c] : List Char) ++ (escChars rest ++ ys) =
        '\\' :: c :: (escChars rest ++ ys) from rfl]
      rw [hasBadEscape_bs_good (safe_escaped_cases hc hesc)]
      rw [hasBadEscape_cons_ne (safeIdChar_not_bs hc)]
      exact hrest
    · rw [escChar_plain hesc]
      rw [show ([c] : List Char) ++ (escChars rest ++ ys) =
        c :: (escChars rest ++ ys) from rfl]
      rw [hasBadEscape_cons_ne (safeIdChar_not_bs hc)]
      exact hrest

/-! ## Lemmas about the alternation template parser -/

theorem sepJoinChars_one (b : List Char) : sepJoinChars [b] = b := rfl

theorem hasBadEscape_sepJoin (bs : List (List Char))
    (h : ∀ b ∈ bs, ∀ c ∈ b, safeIdChar c = true) (ys : List Char) :
    hasBadEscape (sepJoinChars (bs.map escChars) ++ ys) = hasBadEscape ys := by
  induction bs with
  | nil => rfl
  | cons b bs ih =>
    cases bs with
    | nil =>
      show hasBadEscape (escChars b ++ ys) = hasBadEscape ys
      exact hasBadEscape_escChars (h b (List.mem_cons_self _ _)) ys
    | cons b2 bs2 =>
      rw [List.map_cons, List.map_cons, sepJoinChars_two]
      rw [List.append_assoc, List.append_assoc]
      rw [hasBadEscape_escChars (h b (List.mem_cons_self _ _))]
      rw [hasBadEscape_append_nobs (by decide : ∀ c ∈ REGEX_BLOCK_DELIM.data, c ≠ '\\')]
      rw [← List.map_cons]
      exact ih (fun b' hb' => h b' (List.mem_cons_of_mem _ hb'))

theorem wrapChars_eq (bs : List (List Char)) :
    wrapChars bs = '/' :: '^' :: '(' :: '(' ::
      (sepJoinChars bs ++ [')', ')', '$', '/']) := rfl

theorem hasBadEscape_wrap (bs : List (List Char))
    (h : ∀ b ∈ bs, ∀ c ∈ b, safeIdChar c = true) :
    hasBadEscape (wrapChars (bs.map escChars)) = false := by
  rw [wrapChars_eq]
  rw [hasBadEscape_cons_ne (by decide), hasBadEscape_cons_ne (by decide),
    hasBadEscape_cons_ne (by decide), hasBadEscape_cons_ne (by decide)]
  rw [hasBadEscape_sepJoin bs h]
  rfl

theorem takeWhile_append_all {p : Char → Bool} {xs : List Char}
    (h : ∀ c ∈ xs, p c = true) {y : Char} (hy : ¬ p y = true) (ys : List Char) :
    (xs ++ y :: ys).takeWhile p = xs ∧ (xs ++ y :: ys).dropWhile p = y :: ys := by
  induction xs with
  | nil =>
    constructor
    · exact List.takeWhile_cons_of_neg hy
    · exact List.dropWhile_cons_of_neg hy
  | cons c xs ih =>
    have hc := h c (List.mem_cons_self _ _)
    obtain ⟨ht, hd⟩ := ih (fun d hd => h d (List.mem_cons_of_mem _ hd))
    constructor
    · rw [List.cons_append, List.takeWhile_cons_of_pos hc, ht]
    · rw [List.cons_append, List.dropWhile_cons_of_pos hc, hd]

theorem parseId_exact {b : List Char} (hb : b ≠ []) (hid : ∀ c ∈ b, idChar c = true)
    (t : List Char) : parseId ('(' :: (b ++ ')' :: t)) = some t := by
  obtain ⟨htake, hdrop⟩ :=
    takeWhile_append_all hid (by decide : ¬ idChar ')' = true) t
  show (if ((b ++ ')' :: t).takeWhile idChar).isEmpty = true then none
    else
      match (b ++ ')' :: t).dropWhile idChar with
      | ')' :: r => some r
      | _ => none) = some t
  rw [htake, hdrop]
  cases b with
  | nil => exact absurd rfl hb
  | cons c cb => rfl

theorem parseMore_pipe {rest r2 : List Char} (h : parseId rest = some r2) :
    parseMore ('|' :: rest) = parseMore r2 := by
  have hlt := parseId_length h
  unfold parseMore
  have h1 : parseMoreFuel ('|' :: rest).length ('|' :: rest) =
      match parseId rest with
      | some rr => parseMoreFuel rest.length rr
      | none => '|' :: rest := by
    show (if ('|' : Char) = '|' then
        match parseId rest with
        | some rr => parseMoreFuel rest.length rr
        | none => '|' :: rest
      else '|' :: rest) = _
    rw [if_pos rfl]
  rw [h1, h]
  exact parseMoreFuel_congr rest.length r2.length r2 (by omega) (Nat.le_refl _)

theorem parseMore_tail : parseMore [')', '$', '/'] = [')', '$', '/'] := rfl

theorem altChars_one (b : List Char) : altChars [b] = '(' :: (b ++ [')']) := rfl

theorem altChars_cons (b b2 : List Char) (bs : List (List Char)) :
    altChars (b :: b2 :: bs) = ('(' :: b) ++ ([')', '|'] ++ altChars (b2 :: bs)) := by
  rw [show altChars (b :: b2 :: bs) = '(' :: b ++ [')', '|'] ++ altChars (b2 :: bs) from rfl]
  simp [List.append_assoc]

theorem parseMoreAlt : ∀ (bs : List (List Char)), bs ≠ [] →
    (∀ b ∈ bs, b ≠ [] ∧ ∀ c ∈ b, idChar c = true) →
    parseMore ('|' :: (altChars bs ++ [')', '$', '/'])) = [')', '$', '/'] := by
  intro bs
  induction bs with
  | nil => intro h; exact absurd rfl h
  | cons b bs ih =>
    intro _ hb
    have hbb := hb b (List.mem_cons_self _ _)
    cases bs with
    | nil =>
      have hshape : altChars [b] ++ [')', '$', '/'] = '(' :: (b ++ ')' :: [')', '$', '/']) := by
        rw [altChars_one, List.cons_append, List.append_assoc]
        rfl
      rw [hshape, parseMore_pipe (parseId_exact hbb.1 hbb.2 _)]
      exact parseMore_tail
    | cons b2 bs2 =>
      have hshape : altChars (b :: b2 :: bs2) ++ [')', '$', '/'] =
          '(' :: (b ++ ')' :: '|' :: (altChars (b2 :: bs2) ++ [')', '$', '/'])) := by
        rw [altChars_cons, List.append_assoc, List.cons_append, List.append_assoc]
        rfl
      rw [hshape, parseMore_pipe (parseId_exact hbb.1 hbb.2 _)]
      exact ih (by simp) (fun b' hb' => hb b' (List.mem_cons_of_mem _ hb'))

theorem matchFromAlt (bs : List (List Char)) (hne : bs ≠ [])
    (hb : ∀ b ∈ bs, b ≠ [] ∧ ∀ c ∈ b, idChar c = true) :
    matchFrom (altChars bs ++ [')', '$', '/']) = true := by
  cases bs with
  | nil => exact absurd rfl hne
  | cons b bs =>
    have hbb := hb b (List.mem_cons_self _ _)
    cases bs with
    | nil =>
      have hshape : altChars [b] ++ [')', '$', '/'] = '(' :: (b ++ ')' :: [')', '$', '/']) := by
        rw [altChars_one, List.cons_append, List.append_assoc]
        rfl
      rw [hshape]
      unfold matchFrom
      rw [parseId_exact hbb.1 hbb.2]
      rfl
    | cons b2 bs2 =>
      have hshape : altChars (b :: b2 :: bs2) ++ [')', '$', '/'] =
          '(' :: (b ++ ')' :: '|' :: (altChars (b2 :: bs2) ++ [')', '$', '/'])) := by
        rw [altChars_cons, List.append_assoc, List.cons_append, List.append_assoc]
        rfl
      rw [hshape]
      unfold matchFrom
      rw [parseId_exact hbb.1 hbb.2]
      show (let rem := parseMore ('|' :: (altChars (b2 :: bs2) ++ [')', '$', '/']))
        (rem = [')', '$', '/'] || rem = ['$', '/'] : Bool)) = true
      rw [parseMoreAlt (b2 :: bs2) (by simp) (fun b' hb' => hb b' (List.mem_cons_of_mem _ hb'))]
      rfl

theorem alt_shape : ∀ (bs : List (List Char)), bs ≠ [] →
    '(' :: (sepJoinChars bs ++ [')', ')', '$', '/']) =
      altChars bs ++ [')', '$', '/'] := by
  intro bs
  induction bs with
  | nil => intro h; exact absurd rfl h
  | cons b bs ih =>
    intro _
    cases bs with
    | nil =>
      rw [sepJoinChars_one, altChars_one, List.cons_append, List.append_assoc]
      rfl
    | cons b2 bs2 =>
      rw [sepJoinChars_two, altChars_cons]
      simp only [List.append_assoc, List.cons_append]
      rw [← ih (by simp)]
      rfl

theorem kIsMultipleIds_cons {s : String} (rest : List Char)
    (h : s.data = '/' :: '^' :: '(' :: '(' :: rest)
    (hm : matchFrom ('(' :: rest) = true) : kIsMultipleIds s = true := by
  unfold kIsMultipleIds
  rw [h]
  show (matchFrom ('(' :: rest) || matchFrom ('(' :: '(' :: rest)) = true
  rw [hm]
  rfl

theorem kIsMultipleIds_wrap (gs : List (List Char)) (hne : gs ≠ [])
    (hsafe : ∀ g ∈ gs, g ≠ [] ∧ ∀ c ∈ g, safeIdChar c = true) :
    kIsMultipleIds ⟨wrapChars (gs.map escChars)⟩ = true := by
  refine kIsMultipleIds_cons (sepJoinChars (gs.map escChars) ++ [')', ')', '$', '/'])
    (by rw [show (⟨wrapChars (gs.map escChars)⟩ : String).data =
      wrapChars (gs.map escChars) from rfl, wrapChars_eq]) ?_
  rw [show ('(' :: (sepJoinChars (gs.map escChars) ++ [')', ')', '$', '/'])) =
      altChars (gs.map escChars) ++ [')', '$', '/'] from
    alt_shape (gs.map escChars) (by intro h; exact hne (List.map_eq_nil_iff.mp h))]
  refine matchFromAlt (gs.map escChars) (by intro h; exact hne (List.map_eq_nil_iff.mp h)) ?_
  intro b hb
  obtain ⟨g, hg, rfl⟩ := List.mem_map.mp hb
  exact ⟨escChars_ne_nil (hsafe g hg).1, escChars_all_idChar (hsafe g hg).2⟩

theorem dropGunkStart_wrap (X : List Char) :
    dropGunkStart ('/' :: '^' :: '(' :: '(' :: X) = X := rfl

theorem dropGunkEnd_append (X : List Char) :
    dropGunkEnd (X ++ [')', ')', '$', '/']) = X := by
  unfold dropGunkEnd
  rw [List.reverse_append]
  show X.reverse.reverse = X
  rw [List.reverse_reverse]

theorem stripGunk_wrap (bs : List (List Char)) :
    stripGunkChars (wrapChars bs) = (sepJoinChars bs).filter (fun c => c ≠ '\\') := by
  unfold stripGunkChars
  rw [wrapChars_eq bs, dropGunkStart_wrap, dropGunkEnd_append]

theorem filter_sepJoin_esc (gs : List (List Char))
    (h : ∀ g ∈ gs, ∀ c ∈ g, safeIdChar c = true) :
    (sepJoinChars (gs.map escChars)).filter (fun c => c ≠ '\\') = sepJoinChars gs := by
  induction gs with
  | nil => rfl
  | cons g gs ih =>
    cases gs with
    | nil =>
      show (escChars g).filter (fun c => c ≠ '\\') = g
      exact escChars_filter_bs (h g (List.mem_cons_self _ _))
    | cons g2 gs2 =>
      rw [List.map_cons, List.map_cons, sepJoinChars_two, sepJoinChars_two]
      rw [List.filter_append, List.filter_append]
      rw [escChars_filter_bs (h g (List.mem_cons_self _ _))]
      rw [show REGEX_BLOCK_DELIM.data.filter (fun c => c ≠ '\\') =
        REGEX_BLOCK_DELIM.data from by decide]
      rw [← List.map_cons]
      rw [ih (fun g' hg' => h g' (List.mem_cons_of_mem _ hg'))]

theorem splitArms_ne_nil (l : List Char) : splitArms l ≠ [] := by
  rw [splitArms.eq_def]
  split
  · simp
  · simp
  · split <;> simp

theorem splitArms_sep (t : List Char) :
    splitArms (')' :: '|' :: '(' :: t) = [] :: splitArms t := rfl

theorem splitArms_cons_safe {c : Char} (h : c ≠ ')') (t : List Char) :
    splitArms (c :: t) =
      match splitArms t with
      | a :: as => (c :: a) :: as
      | [] => [[c]] := by
  rw [splitArms.eq_def]
  split
  · rename_i heq
    exact absurd heq (by simp)
  · rename_i rest2 heq
    injection heq with h1 _
    exact absurd h1 h
  · rename_i heq2
    injection heq2 with h1 h2
    rw [← h1, ← h2]

theorem splitArms_prepend_safe :
    ∀ (b : List Char), (∀ c ∈ b, safeIdChar c = true) →
      ∀ (t a : List Char) (as : List (List Char)), splitArms t = a :: as →
        splitArms (b ++ t) = (b ++ a) :: as := by
  intro b
  induction b with
  | nil =>
    intro _ t a as h
    simpa using h
  | cons c b' ih =>
    intro hsafe t a as h
    have hc : c ≠ ')' := safeIdChar_ne (hsafe c (List.mem_cons_self _ _)) (by decide)
    rw [List.cons_append, splitArms_cons_safe hc]
    rw [ih (fun d hd => hsafe d (List.mem_cons_of_mem _ hd)) t a as h]
    rfl

theorem splitArms_sepJoin :
    ∀ (gs : List (List Char)), (∀ g ∈ gs, ∀ c ∈ g, safeIdChar c = true) →
      gs ≠ [] → splitArms (sepJoinChars gs) = gs := by
  intro gs
  induction gs with
  | nil => intro _ h; exact absurd rfl h
  | cons g gs ih =>
    intro hsafe _
    have hgs := hsafe g (List.mem_cons_self _ _)
    cases gs with
    | nil =>
      rw [sepJoinChars_one]
      have hsplit := splitArms_prepend_safe g hgs [] [] [] rfl
      rw [List.append_nil] at hsplit
      exact hsplit
    | cons g2 gs2 =>
      rw [sepJoinChars_two, List.append_assoc]
      have hih := ih (fun g' hg' => hsafe g' (List.mem_cons_of_mem _ hg')) (by simp)
      have hsep : splitArms (REGEX_BLOCK_DELIM.data ++ sepJoinChars (g2 :: gs2)) =
          [] :: (g2 :: gs2) := by
        rw [show REGEX_BLOCK_DELIM.data ++ sepJoinChars (g2 :: gs2) =
          ')' :: '|' :: '(' :: sepJoinChars (g2 :: gs2) from rfl]
        rw [splitArms_sep, hih]
      have hsplit := splitArms_prepend_safe g hgs _ [] (g2 :: gs2) hsep
      rw [List.append_nil] at hsplit
      exact hsplit

theorem map_mk_data (gs : List String) :
    (gs.map String.data).map (fun a => (⟨a⟩ : String)) = gs := by
  induction gs with
  | nil => rfl
  | cons g gs ih =>
    rw [List.map_cons, List.map_cons, ih]

theorem chunkGuids_single (gs : List String)
    (h : blockLen (gs.map regexEscape) ≤ REGEX_BLOCK_MAXLEN) :
    chunkGuids gs = [gs.map regexEscape] := by
  unfold chunkGuids
  rw [chunkLoop_single gs [] [] 0 rfl (by rw [show blockLen [] = 0 from rfl]; omega)]
  rfl

theorem expand_literal (s : String) (h : s.data.head? ≠ some '/') :
    expandGuidRegex s = [s] := by
  rw [expandGuidRegex.eq_def]
  split
  · rename_i heq
    rw [heq] at h
    simp at h
  · rfl

theorem expand_wrap (gs : List String) (hne : gs ≠ []) (hsafe : ∀ g ∈ gs, safeGuid g) :
    expandGuidRegex (wrapBlock (gs.map regexEscape)) = dedupFirst gs := by
  have hbsne : gs.map String.data ≠ [] := by
    intro h; exact hne (List.map_eq_nil_iff.mp h)
  have hbs : ∀ b ∈ gs.map String.data, b ≠ [] ∧ ∀ c ∈ b, safeIdChar c = true := by
    intro b hb
    obtain ⟨g, hg, rfl⟩ := List.mem_map.mp hb
    exact ⟨(hsafe g hg).1, (hsafe g hg).2⟩
  have hstr : wrapBlock (gs.map regexEscape) =
      ⟨wrapChars ((gs.map String.data).map escChars)⟩ := by
    unfold wrapBlock
    rw [List.map_map, List.map_map]
    rfl
  have hdata : (wrapBlock (gs.map regexEscape)).data =
      wrapChars ((gs.map String.data).map escChars) := congrArg String.data hstr
  have hk : kIsMultipleIds (wrapBlock (gs.map regexEscape)) = true := by
    rw [hstr]
    exact kIsMultipleIds_wrap (gs.map String.data) hbsne hbs
  have hbad : hasBadEscape (wrapBlock (gs.map regexEscape)).data = false := by
    rw [hdata]
    exact hasBadEscape_wrap (gs.map String.data) (fun b hb => (hbs b hb).2)
  show (if (kIsMultipleIds (wrapBlock (gs.map regexEscape)) &&
      !hasBadEscape (wrapBlock (gs.map regexEscape)).data) = true then
      dedupFirst ((splitArms (stripGunkChars (wrapBlock (gs.map regexEscape)).data)).map
        (fun a => (⟨a⟩ : String)))
    else []) = dedupFirst gs
  rw [if_pos (by rw [hk, hbad]; rfl)]
  rw [hdata]
  rw [stripGunk_wrap, filter_sepJoin_esc _ (fun b hb => (hbs b hb).2)]
  rw [splitArms_sepJoin (gs.map String.data) (fun b hb => (hbs b hb).2) hbsne]
  rw [map_mk_data]

/-! ## Claim theorems -/

/-- Claim C3 (counterexample): the block-length bound fails as stated.  With a
4239-character guid followed by `"b"`, the packing counter stays at
`4246 ≤ 4250`, so both guids share one block, yet the wrapped block string is
4251 characters long — longer than `REGEX_BLOCK_MAXLEN` — while the block
contains two guids. -/
theorem createGuidStrings_maxlen_cex :
    ¬ lengthClaimAt [cexLongA, "b"] ∧
      ∃ st ∈ createGuidStrings [cexLongA, "b"],
        REGEX_BLOCK_MAXLEN < st.length := by
  have hchunk := chunkGuids_cexA
  have hlen := wrapBlock_cexA_length
  have hM : REGEX_BLOCK_MAXLEN = 4250 := rfl
  constructor
  · intro hclaim
    have hb := hclaim [cexLongA, "b"] (by rw [hchunk]; exact List.mem_singleton_self _)
    rcases hb with hle | hone
    · rw [hlen] at hle; omega
    · simp at hone
  · refine ⟨wrapBlock [cexLongA, "b"], ?_, ?_⟩
    · unfold createGuidStrings
      rw [if_pos (by simp)]
      rw [hchunk]
      exact List.mem_map_of_mem _ (List.mem_singleton_self _)
    · rw [hlen]; omega

/-- Claim C3 (amended): every block string produced by `createGuidStrings` for
a multi-guid input is at most `REGEX_BLOCK_MAXLEN + 5` characters long, or
its block holds exactly one guid.  (The greedy counter bounds the escaped
content plus one three-character delimiter per guid by `REGEX_BLOCK_MAXLEN`;
the wrapper adds eight characters while only `k - 1` delimiters are used, a
net overshoot of five.) -/
theorem createGuidStrings_length_amended (gs : List String) (h : 1 < gs.length) :
    createGuidStrings gs = (chunkGuids gs).map wrapBlock ∧
    ∀ b ∈ chunkGuids gs,
      (wrapBlock b).length ≤ REGEX_BLOCK_MAXLEN + 5 ∨ b.length = 1 := by
  have hM : REGEX_BLOCK_MAXLEN = 4250 := rfl
  constructor
  · unfold createGuidStrings
    rw [if_pos h]
  · intro b hb
    have hbd := chunkLoop_bounded gs [] [] 0 (by simp) rfl
      (by left; rw [blockLen]; omega) b hb
    rcases hbd with hle | hle1
    · cases b with
      | nil => left; rw [wrapBlock_nil_length]; omega
      | cons e b' => left; rw [wrapBlock_length _ (by simp)]; omega
    · cases b with
      | nil => left; rw [wrapBlock_nil_length]; omega
      | cons e b' =>
        right
        simp only [List.length_cons] at hle1 ⊢
        have : b' = [] := List.length_eq_zero.mp (by omega)
        rw [this]
        rfl

/-- Claim C3 (witness): instantiation of the amended bound at a concrete
two-guid block. -/
theorem createGuidStrings_length_amended_witness :
    (wrapBlock ["a@x\\.com", "b@x\\.com"]).length ≤ REGEX_BLOCK_MAXLEN + 5 ∨
      (["a@x\\.com", "b@x\\.com"] : List String).length = 1 := by
  have h := (createGuidStrings_length_amended ["a@x.com", "b@x.com"] (by decide)).2
  exact h ["a@x\\.com", "b@x\\.com"] (by decide)

/-- Claim C8 (counterexample): the shape guarantee fails as stated.  When the
first guid is itself oversized (4248 characters), the loop closes the empty
initial block, and `createGuidStrings` emits the degenerate string
`/^(())$/`, which is not the wrap of any nonempty list of escaped input
guids. -/
theorem compile_shape_cex : ¬ shapeClaimAt [cexLongB, "b"] := by
  intro hclaim
  have hchunk := chunkGuids_cexB
  have hmem : wrapBlock [] ∈ createGuidStrings [cexLongB, "b"] := by
    unfold createGuidStrings
    rw [if_pos (by simp)]
    rw [hchunk]
    exact List.mem_map_of_mem _ (by simp)
  obtain ⟨parts, hne, hesc, heq⟩ := hclaim (wrapBlock []) hmem
  have h8 : (wrapBlock []).length = 8 := rfl
  have h9 : 9 ≤ (wrapBlock parts).length := by
    cases parts with
    | nil => exact absurd rfl hne
    | cons e ps =>
      rw [wrapBlock_length _ (by simp)]
      obtain ⟨g, hg, hge⟩ := hesc e (List.mem_cons_self _ _)
      have he : 1 ≤ e.length := by
        rcases List.mem_cons.mp hg with rfl | hg2
        · rw [hge, regexEscape_cexLongB, cexLongB_length]; omega
        · rcases List.mem_singleton.mp (by simpa using hg2) with rfl
          rw [hge]
          decide
      have hmem2 : e.length + REGEX_BLOCK_DELIM.length ≤ blockLen (e :: ps) :=
        le_blockLen_of_mem (List.mem_cons_self _ _)
      have hD : REGEX_BLOCK_DELIM.length = 3 := rfl
      omega
  rw [← heq, h8] at h9
  omega

/-- Claim C8 (amended): for every multi-guid input, `createGuidStrings` wraps
exactly the blocks of the greedy loop; the concatenation of the blocks is the
escaped input in order (so no guid is dropped, split, or reordered, and each
lands in exactly one block); a guid whose escaped form exceeds the maximum
block length sits alone in its block; and every block is nonempty — hence of
the documented alternation shape — except that a leading empty block (wrapping
to `/^(())$/`) can appear when some input guid is itself oversized. -/
theorem compile_structure_amended (gs : List String) (h : 1 < gs.length) :
    createGuidStrings gs = (chunkGuids gs).map wrapBlock ∧
    (chunkGuids gs).flatten = gs.map regexEscape ∧
    (∀ b ∈ chunkGuids gs, ∀ e ∈ b,
      REGEX_BLOCK_MAXLEN < e.length + REGEX_BLOCK_DELIM.length → b = [e]) ∧
    (∀ b ∈ chunkGuids gs, b ≠ [] ∨ ∃ g ∈ gs, oversizedGuid g) := by
  refine ⟨?_, ?_, ?_, ?_⟩
  · unfold createGuidStrings
    rw [if_pos h]
  · unfold chunkGuids
    rw [chunkLoop_join]
    simp
  · intro b hb e he hbig
    have hbd := chunkLoop_bounded gs [] [] 0 (by simp) rfl
      (by left; rw [blockLen]; omega) b hb
    have hmem := le_blockLen_of_mem he
    have hlen1 : b.length ≤ 1 := by
      rcases hbd with hle | hle1
      · omega
      · exact hle1
    cases b with
    | nil => cases he
    | cons x b' =>
      simp only [List.length_cons] at hlen1
      have hb' : b' = [] := List.length_eq_zero.mp (by omega)
      subst hb'
      rcases List.mem_singleton.mp he with rfl
      rfl
  · intro b hb
    refine chunkLoop_nonempty (∃ g ∈ gs, oversizedGuid g) gs [] [] 0
      (fun g hg ho => ⟨g, hg, ho⟩) (by simp) ?_ b hb
    intro _
    exact ⟨rfl, by intro hgs; rw [hgs] at h; simp at h⟩

/-- Claim C8 (witness): instantiation of the amended structure theorem at a
concrete two-guid input. -/
theorem compile_structure_amended_witness :
    (chunkGuids ["a@x.com", "b@x.com"]).flatten =
      ["a@x.com", "b@x.com"].map regexEscape ∧
    createGuidStrings ["a@x.com", "b@x.com"] =
      (chunkGuids ["a@x.com", "b@x.com"]).map wrapBlock := by
  have h := compile_structure_amended ["a@x.com", "b@x.com"] (by decide)
  exact ⟨h.2.1, h.1⟩


/-- Claim C5: `ensureBlocklistState` throws exactly when the current collection
status is not a member of the allowed set, and never mutates the collection;
`reviewBlocklist` (allowed only from `work-in-progress`), `signBlocklist` and
`rejectBlocklist` (both allowed only from `to-review`) write their target
status exactly when the assertion succeeds — on the throwing path the write
trace is unchanged. -/
theorem ensureBlocklistState_guard (st : KintoState) (statii : List String) :
    ((ensureBlocklistState statii st).isErr = true ↔ st.status ∉ statii) ∧
    (ensureBlocklistState statii st).stateOf = st ∧
    ((reviewBlocklist st).isErr = true ↔
      st.status ∉ (["work-in-progress"] : List String)) ∧
    ((reviewBlocklist st).stateOf).writes =
      (if st.status ∈ (["work-in-progress"] : List String) then st.writes ++ ["to-review"]
       else st.writes) ∧
    ((signBlocklist st).isErr = true ↔ st.status ∉ (["to-review"] : List String)) ∧
    ((signBlocklist st).stateOf).writes =
      (if st.status ∈ (["to-review"] : List String) then st.writes ++ ["to-sign"]
       else st.writes) ∧
    ((rejectBlocklist st).isErr = true ↔ st.status ∉ (["to-review"] : List String)) ∧
    ((rejectBlocklist st).stateOf).writes =
      (if st.status ∈ (["to-review"] : List String) then st.writes ++ ["work-in-progress"]
       else st.writes) := by
  refine ⟨?_, ?_, ?_, ?_, ?_, ?_, ?_, ?_⟩
  · by_cases h : st.status ∈ statii <;>
      simp [ensureBlocklistState, h, KResult.isErr]
  · by_cases h : st.status ∈ statii <;>
      simp [ensureBlocklistState, h, KResult.stateOf]
  · by_cases h : st.status = "work-in-progress" <;>
      simp [reviewBlocklist, ensureBlocklistState, h, KResult.isErr, List.mem_singleton]
  · by_cases h : st.status = "work-in-progress" <;>
      simp [reviewBlocklist, ensureBlocklistState, h, KResult.stateOf,
        updateCollectionStatus, List.mem_singleton]
  · by_cases h : st.status = "to-review" <;>
      simp [signBlocklist, ensureBlocklistState, h, KResult.isErr, List.mem_singleton]
  · by_cases h : st.status = "to-review" <;>
      simp [signBlocklist, ensureBlocklistState, h, KResult.stateOf,
        updateCollectionStatus, List.mem_singleton]
  · by_cases h : st.status = "to-review" <;>
      simp [rejectBlocklist, ensureBlocklistState, h, KResult.isErr, List.mem_singleton]
  · by_cases h : st.status = "to-review" <;>
      simp [rejectBlocklist, ensureBlocklistState, h, KResult.stateOf,
        updateCollectionStatus, List.mem_singleton]

/-- Claim C9: the request builder issues exactly one creation request per
block returned by `createGuidStrings`, every request carries the same
bug/name/reason metadata and the hard-block severity, and the version range is
the default `{0, *}` whenever more than one guid is being blocked — the
prompted custom range is applied only in the single-guid case. -/
theorem createBlocklistEntry_versionPolicy (guids : List String)
    (bugid name reason amin amax : String) :
    (createBlocklistEntryRequests guids bugid name reason amin amax).length =
      (createGuidStrings guids).length ∧
    ∀ r ∈ createBlocklistEntryRequests guids bugid name reason amin amax,
      r.bug = bugid ∧ r.name = name ∧ r.reason = reason ∧ r.severity = HARD_BLOCK ∧
      r.minVersion = (if guids.length = 1 then (if amin = "" then "0" else amin) else "0") ∧
      r.maxVersion = (if guids.length = 1 then (if amax = "" then "*" else amax) else "*") := by
  constructor
  · unfold createBlocklistEntryRequests
    rw [List.length_map]
  · intro r hr
    unfold createBlocklistEntryRequests at hr
    obtain ⟨g, _, rfl⟩ := List.mem_map.mp hr
    exact ⟨rfl, rfl, rfl, rfl, rfl, rfl⟩

/-- Claim C9 (witness): instantiation at a concrete two-guid input — one block,
default version range. -/
theorem createBlocklistEntry_versionPolicy_witness :
    ((createBlocklistEntryRequests ["a@x.com", "b@x.com"] "111" "nm" "rsn" "2.0" "3.0").length =
      (createGuidStrings ["a@x.com", "b@x.com"]).length) ∧
    (⟨"/^((a@x\\.com)|(b@x\\.com))$/", "111", "nm", "rsn", 3, "0", "*"⟩ :
      CreationRequest).minVersion = "0" := by
  have h := createBlocklistEntry_versionPolicy ["a@x.com", "b@x.com"] "111" "nm" "rsn" "2.0" "3.0"
  refine ⟨h.1, ?_⟩
  have h2 := h.2 ⟨"/^((a@x\\.com)|(b@x\\.com))$/", "111", "nm", "rsn", 3, "0", "*"⟩ (by decide)
  have h3 := h2.2.2.2.2.1
  simp only [show (["a@x.com", "b@x.com"] : List String).length = 2 from rfl] at h3
  rw [h3]

/-- Claim C1: after trimming and dropping empty or `#`-commented lines,
`readGuidData` places every remaining candidate in exactly one of `existing`
and `newguids` — the classification is a total partition of the filtered
input. -/
theorem readGuidData_partition {ε : Type} (lines : List String)
    (guids : List (String × ε)) (regexes : List (RegexEntry ε)) (line : String)
    (hline : line ∈ lines) (h1 : jsTrim line ≠ "")
    (h2 : (jsTrim line).data.head? ≠ some '#') :
    ((∃ v, (jsTrim line, v) ∈ (readGuidData lines guids regexes).existing) ∧
      jsTrim line ∉ (readGuidData lines guids regexes).newguids) ∨
    ((∀ v, (jsTrim line, v) ∉ (readGuidData lines guids regexes).existing) ∧
      jsTrim line ∈ (readGuidData lines guids regexes).newguids) :=
  readGuidData_partition_core lines guids regexes hline
    (by unfold skippedLine; push_neg; exact ⟨h1, h2⟩)

/-- Claim C1 (witness): the scenario of the specification — one already-blocked
guid, one new guid, a comment and a blank line. -/
theorem readGuidData_partition_witness :
    ((∃ v, (jsTrim "new@ext.com", v) ∈
        (readGuidData ["bad@ext.com", "new@ext.com", "# comment", ""]
          [("bad@ext.com", (111 : Nat))] []).existing) ∧
      jsTrim "new@ext.com" ∉
        (readGuidData ["bad@ext.com", "new@ext.com", "# comment", ""]
          [("bad@ext.com", (111 : Nat))] []).newguids) ∨
    ((∀ v, (jsTrim "new@ext.com", v) ∉
        (readGuidData ["bad@ext.com", "new@ext.com", "# comment", ""]
          [("bad@ext.com", (111 : Nat))] []).existing) ∧
      jsTrim "new@ext.com" ∈
        (readGuidData ["bad@ext.com", "new@ext.com", "# comment", ""]
          [("bad@ext.com", (111 : Nat))] []).newguids) :=
  readGuidData_partition ["bad@ext.com", "new@ext.com", "# comment", ""]
    [("bad@ext.com", (111 : Nat))] [] "new@ext.com" (by decide) (by decide) (by decide)

/-- Claim C6: a candidate that has an exact entry and also matches regex
entries is classified as existing under the exact entry (the exact match
wins), it is not counted as new, and an overlap warning naming all matching
regex sources is emitted. -/
theorem readGuidData_exact_precedence {ε : Type} (lines : List String)
    (guids : List (String × ε)) (regexes : List (RegexEntry ε)) (line : String)
    (entry : ε) (hline : line ∈ lines) (hskip : ¬ skippedLine line)
    (hlook : lookupMap guids (jsTrim line) = some entry)
    (hre : regexes.filter (fun r => r.test (jsTrim line)) ≠ []) :
    (jsTrim line, entry) ∈ (readGuidData lines guids regexes).existing ∧
    jsTrim line ∉ (readGuidData lines guids regexes).newguids ∧
    GuidWarning.singleAndRegex (jsTrim line)
      ((regexes.filter (fun r => r.test (jsTrim line))).map (fun r => r.source)) ∈
      (readGuidData lines guids regexes).warnings := by
  have hc : classifyGuid guids regexes (jsTrim line) = some entry := by
    unfold classifyGuid
    rw [hlook]
  obtain ⟨hmem, hnew, hwarn⟩ :=
    readGuidData_mem_of_classify lines guids regexes hline hskip hc
  refine ⟨hmem, hnew, hwarn _ ?_⟩
  cases hm : regexes.filter (fun r => r.test (jsTrim line)) with
  | nil => exact absurd hm hre
  | cons r rs =>
    have hwf : warnFor guids regexes (jsTrim line) =
        [GuidWarning.singleAndRegex (jsTrim line)
          ((r :: rs).map (fun rr => rr.source))] := by
      unfold warnFor
      rw [hlook, hm]
      rfl
    rw [hwf]
    exact List.mem_singleton_self _

/-- Claim C6 (witness): the regex-precedence scenario of the specification. -/
theorem readGuidData_exact_precedence_witness :
    (jsTrim "a@b.com", (1 : Nat)) ∈
      (readGuidData ["a@b.com"] [("a@b.com", (1 : Nat))]
        [⟨"re1", fun s => s = "a@b.com", 2⟩]).existing ∧
    jsTrim "a@b.com" ∉
      (readGuidData ["a@b.com"] [("a@b.com", (1 : Nat))]
        [⟨"re1", fun s => s = "a@b.com", 2⟩]).newguids ∧
    GuidWarning.singleAndRegex (jsTrim "a@b.com")
      (([(⟨"re1", fun s => s = "a@b.com", 2⟩ : RegexEntry Nat)].filter
        (fun r => r.test (jsTrim "a@b.com"))).map (fun r => r.source)) ∈
      (readGuidData ["a@b.com"] [("a@b.com", (1 : Nat))]
        [⟨"re1", fun s => s = "a@b.com", 2⟩]).warnings :=
  readGuidData_exact_precedence ["a@b.com"] [("a@b.com", (1 : Nat))]
    [⟨"re1", fun s => s = "a@b.com", 2⟩] "a@b.com" 1
    (by decide) (by unfold skippedLine; decide) rfl (by intro h; exact List.noConfusion h)

/-- Claim C7: a candidate with no exact entry matching several regex entries
is classified as existing under the first matching entry in index order, a
warning naming all matching sources is emitted, classification does not fail,
and every other filtered candidate is still placed in exactly one of
`existing` and `newguids`. -/
theorem readGuidData_ambiguous_first {ε : Type} (lines : List String)
    (guids : List (String × ε)) (regexes : List (RegexEntry ε)) (line : String)
    (r : RegexEntry ε) (rs : List (RegexEntry ε))
    (hline : line ∈ lines) (hskip : ¬ skippedLine line)
    (hlook : lookupMap guids (jsTrim line) = none)
    (hfil : regexes.filter (fun rr => rr.test (jsTrim line)) = r :: rs)
    (hmulti : rs ≠ []) :
    (jsTrim line, r.entry) ∈ (readGuidData lines guids regexes).existing ∧
    jsTrim line ∉ (readGuidData lines guids regexes).newguids ∧
    GuidWarning.multipleRegex (jsTrim line) ((r :: rs).map (fun rr => rr.source)) ∈
      (readGuidData lines guids regexes).warnings ∧
    ∀ other ∈ lines, ¬ skippedLine other →
      ((∃ v, (jsTrim other, v) ∈ (readGuidData lines guids regexes).existing) ∧
        jsTrim other ∉ (readGuidData lines guids regexes).newguids) ∨
      ((∀ v, (jsTrim other, v) ∉ (readGuidData lines guids regexes).existing) ∧
        jsTrim other ∈ (readGuidData lines guids regexes).newguids) := by
  have hc : classifyGuid guids regexes (jsTrim line) = some r.entry := by
    unfold classifyGuid
    rw [hlook, hfil]
  obtain ⟨hmem, hnew, hwarn⟩ :=
    readGuidData_mem_of_classify lines guids regexes hline hskip hc
  refine ⟨hmem, hnew, hwarn _ ?_, ?_⟩
  · cases rs with
    | nil => exact absurd rfl hmulti
    | cons r2 rs2 =>
      have hwf : warnFor guids regexes (jsTrim line) =
          [GuidWarning.multipleRegex (jsTrim line)
            ((r :: r2 :: rs2).map (fun rr => rr.source))] := by
        unfold warnFor
        rw [hlook, hfil]
        dsimp only
        rw [if_pos (by simp)]
      rw [hwf]
      exact List.mem_singleton_self _
  · intro other ho hso
    exact readGuidData_partition_core lines guids regexes ho hso

/-- Claim C7 (witness): a candidate matching two regex entries is filed under
the first one, with the ambiguity warning emitted. -/
theorem readGuidData_ambiguous_first_witness :
    (jsTrim "x@b.com",
      (⟨"re1", fun s => s.length = 7, 10⟩ : RegexEntry Nat).entry) ∈
      (readGuidData ["x@b.com"] ([] : List (String × Nat))
        [⟨"re1", fun s => s.length = 7, 10⟩, ⟨"re2", fun _ => true, 20⟩]).existing ∧
    jsTrim "x@b.com" ∉
      (readGuidData ["x@b.com"] ([] : List (String × Nat))
        [⟨"re1", fun s => s.length = 7, 10⟩, ⟨"re2", fun _ => true, 20⟩]).newguids ∧
    GuidWarning.multipleRegex (jsTrim "x@b.com")
      (((⟨"re1", fun s => s.length = 7, 10⟩ : RegexEntry Nat) ::
        [⟨"re2", fun _ => true, 20⟩]).map (fun rr => rr.source)) ∈
      (readGuidData ["x@b.com"] ([] : List (String × Nat))
        [⟨"re1", fun s => s.length = 7, 10⟩, ⟨"re2", fun _ => true, 20⟩]).warnings ∧
    ∀ other ∈ ["x@b.com"], ¬ skippedLine other →
      ((∃ v, (jsTrim other, v) ∈
          (readGuidData ["x@b.com"] ([] : List (String × Nat))
            [⟨"re1", fun s => s.length = 7, 10⟩, ⟨"re2", fun _ => true, 20⟩]).existing) ∧
        jsTrim other ∉
          (readGuidData ["x@b.com"] ([] : List (String × Nat))
            [⟨"re1", fun s => s.length = 7, 10⟩, ⟨"re2", fun _ => true, 20⟩]).newguids) ∨
      ((∀ v, (jsTrim other, v) ∉
          (readGuidData ["x@b.com"] ([] : List (String × Nat))
            [⟨"re1", fun s => s.length = 7, 10⟩, ⟨"re2", fun _ => true, 20⟩]).existing) ∧
        jsTrim other ∈
          (readGuidData ["x@b.com"] ([] : List (String × Nat))
            [⟨"re1", fun s => s.length = 7, 10⟩, ⟨"re2", fun _ => true, 20⟩]).newguids) :=
  readGuidData_ambiguous_first ["x@b.com"] ([] : List (String × Nat))
    [⟨"re1", fun s => s.length = 7, 10⟩, ⟨"re2", fun _ => true, 20⟩] "x@b.com"
    ⟨"re1", fun s => s.length = 7, 10⟩ [⟨"re2", fun _ => true, 20⟩]
    (by decide) (by unfold skippedLine; decide) rfl rfl (by intro h; exact List.noConfusion h)

/-- Claim C4 (counterexample): a malformed regex pattern aborts index
construction.  On a snapshot holding a good entry, the regex-shaped entry
`/(/` whose pattern `(` fails to compile, and another good entry,
`loadBlocklist` propagates the compile error: no maps are returned at all, so
the other entries are not indexed and no diagnostic list exists. -/
theorem loadBlocklist_abort_cex :
    loadBlocklist compileFailParen snapshotC4 = .error (malformedMsg "(") ∧
    ∀ res, loadBlocklist compileFailParen snapshotC4 ≠ .ok res := by
  constructor
  · rfl
  · intro res h
    rw [show loadBlocklist compileFailParen snapshotC4 = .error (malformedMsg "(") from rfl]
      at h
    exact Except.noConfusion h

/-- Claim C4 (amended): building the index from a snapshot that contains a
regex-shaped entry whose pattern fails to compile *aborts* construction: the
host `SyntaxError` propagates out of `loadBlocklist`, no entry is indexed (not
even the well-formed ones), and no per-entry diagnostic is recorded — the
source has no error handling around `new RegExp`. -/
theorem loadBlocklist_abort_amended {δ π : Type} (compile : String → Option π)
    (entries : List (SnapshotEntry δ))
    (h : ∃ e ∈ entries, regexCompileFails compile e) :
    ∃ msg, loadBlocklist compile entries = .error msg := by
  unfold loadBlocklist
  exact loadBlocklistGo_err compile entries [] [] h

/-- Claim C4 (witness): the amended abort theorem applied to the concrete
snapshot of the counterexample. -/
theorem loadBlocklist_abort_amended_witness :
    ∃ msg, loadBlocklist compileFailParen snapshotC4 = .error msg :=
  loadBlocklist_abort_amended compileFailParen snapshotC4
    ⟨⟨"/(/", 6, some 2, ()⟩, by decide, by unfold regexCompileFails; decide⟩

/-- Claim C10: in a successful index build, an entry whose guid starts with
`^` (and not with `/`) is classified as a regex entry whose pattern is the
full guid string compiled without delimiter stripping; entries whose guid
starts with neither `/` nor `^` land in the exact-guid map; and every key of
the exact-guid map comes from an entry starting with neither character. -/
theorem loadBlocklist_caret_regex {δ π : Type} (compile : String → Option π)
    (entries : List (SnapshotEntry δ)) (res : BlocklistMaps δ π)
    (h : loadBlocklist compile entries = .ok res) :
    (∀ e ∈ entries, e.guid.data.head? ≠ some '/' → e.guid.data.head? = some '^' →
      ∃ p, compile e.guid = some p ∧ (p, normalizeEntry e) ∈ res.regexes) ∧
    (∀ e ∈ entries, e.guid.data.head? ≠ some '/' → e.guid.data.head? ≠ some '^' →
      ∃ w, (e.guid, w) ∈ res.guids) ∧
    (∀ k v, (k, v) ∈ res.guids →
      ∃ e ∈ entries, e.guid = k ∧ e.guid.data.head? ≠ some '/' ∧
        e.guid.data.head? ≠ some '^') := by
  unfold loadBlocklist at h
  refine ⟨?_, ?_, ?_⟩
  · exact loadBlocklistGo_caret compile entries [] [] res h
  · exact (loadBlocklistGo_exact_mem compile entries [] [] res h).1
  · intro k v hk
    rcases loadBlocklistGo_guid_keys compile entries [] [] res h k v hk with ⟨w, hw⟩ | hfound
    · exact absurd hw (List.not_mem_nil _)
    · exact hfound

/-- Claim C10 (witness): a caret-guid entry is compiled whole into the regex
map, and a plain entry keys the exact map. -/
theorem loadBlocklist_caret_regex_witness :
    (∃ p, (fun s => some s : String → Option String) "^caret" = some p ∧
      (p, normalizeEntry (⟨"^caret", 6, some 2, ()⟩ : SnapshotEntry Unit)) ∈
        (⟨[("good@x.com", ⟨"good@x.com", 5, some 5, ()⟩)],
          [("^caret", ⟨"^caret", 6, some 2, ()⟩)]⟩ :
          BlocklistMaps Unit String).regexes) ∧
    ∃ w, ((⟨"good@x.com", 5, none, ()⟩ : SnapshotEntry Unit).guid, w) ∈
      (⟨[("good@x.com", ⟨"good@x.com", 5, some 5, ()⟩)],
        [("^caret", ⟨"^caret", 6, some 2, ()⟩)]⟩ :
        BlocklistMaps Unit String).guids := by
  have h := loadBlocklist_caret_regex (fun s => some s)
    [⟨"good@x.com", 5, none, ()⟩, ⟨"^caret", 6, some 2, ()⟩]
    ⟨[("good@x.com", ⟨"good@x.com", 5, some 5, ()⟩)],
      [("^caret", ⟨"^caret", 6, some 2, ()⟩)]⟩ rfl
  exact ⟨h.1 ⟨"^caret", 6, some 2, ()⟩ (by decide) (by decide) (by decide),
    h.2.1 ⟨"good@x.com", 5, none, ()⟩ (by decide) (by decide) (by decide)⟩

/-- Claim C2 (counterexample): the round trip fails as stated.  For the guid
list `["$", "b"]` (total escaped length far below the bound), the compiled
block is `/^((\$)|(b))$/`, but `expandGuidRegex` is intentionally conservative
and rejects any escape sequence other than `\.`, `\{`, `\}`, so expansion
returns `[]`, not the de-duplicated input.  For the single-element part, a
guid starting with `/` such as `"/a"` is treated as a regex and expands to
`[]`, not to itself. -/
theorem roundtrip_cex :
    expandGuidRegex ((createGuidStrings ["$", "b"]).headD "") ≠ dedupFirst ["$", "b"] ∧
    expandGuidRegex "/a" ≠ ["/a"] := by
  constructor
  · decide
  · decide

/-- Claim C2 (amended): restricted to guids over the reversible alphabet
(nonempty strings of word characters, blanks, dots, curly braces, `@`, `-` —
exactly the ids `kIsMultipleIds` accepts, which in particular cannot begin
with `/`), the round trip holds: for a multi-guid list whose total escaped
length (with per-item delimiter overhead) fits in one block,
`expand (compile gs).head = dedupFirst gs` in first-seen order; and for a
single-element list, `compile` returns the guid verbatim and `expand` maps it
to itself. -/
theorem expand_compile_roundtrip_amended (gs : List String)
    (hsafe : ∀ g ∈ gs, safeGuid g) :
    (1 < gs.length → blockLen (gs.map regexEscape) ≤ REGEX_BLOCK_MAXLEN →
      expandGuidRegex ((createGuidStrings gs).headD "") = dedupFirst gs) ∧
    (∀ g, gs = [g] → createGuidStrings gs = [g] ∧ expandGuidRegex g = [g]) := by
  constructor
  · intro hlen htotal
    have hone : createGuidStrings gs = [wrapBlock (gs.map regexEscape)] := by
      unfold createGuidStrings
      rw [if_pos hlen, chunkGuids_single gs htotal]
      rfl
    rw [hone]
    show expandGuidRegex (wrapBlock (gs.map regexEscape)) = dedupFirst gs
    exact expand_wrap gs (by intro h; rw [h] at hlen; simp at hlen) hsafe
  · intro g hg
    subst hg
    refine ⟨rfl, ?_⟩
    apply expand_literal
    have hs := hsafe g (List.mem_cons_self _ _)
    cases hd : g.data with
    | nil => simp
    | cons c rest =>
      have hc : safeIdChar c = true := hs.2 c (by rw [hd]; exact List.mem_cons_self _ _)
      simp only [List.head?_cons, ne_eq, Option.some.injEq]
      exact safeIdChar_ne hc (by decide)

/-- Claim C2 (witness): the amended round trip at a concrete three-entry list
with a duplicate: expansion recovers the two distinct guids in first-seen
order. -/
theorem expand_compile_roundtrip_amended_witness :
    expandGuidRegex ((createGuidStrings ["a@x.com", "b@x.com", "a@x.com"]).headD "") =
      ["a@x.com", "b@x.com"] := by
  have hsafe : ∀ g ∈ (["a@x.com", "b@x.com", "a@x.com"] : List String), safeGuid g := by
    intro g hg
    rcases List.mem_cons.mp hg with rfl | hg2
    · exact ⟨by decide, by decide⟩
    rcases List.mem_cons.mp hg2 with rfl | hg3
    · exact ⟨by decide, by decide⟩
    rcases List.mem_singleton.mp hg3 with rfl
    exact ⟨by decide, by decide⟩
  have h := (expand_compile_roundtrip_amended ["a@x.com", "b@x.com", "a@x.com"] hsafe).1
    (by decide) (by decide)
  rw [h]
  decide

